import Mathlib

/-!
Shallow embedding of the VROOM problem-builder layer
(`src/structures/vroom/input/input.cpp` and
`src/structures/vroom/solution/route.cpp`) in Lean 4, together with
theorems checking the natural-language specification against the code.

Machine integers (`Index`, `Cost`, `Duration`, ids) are modelled as `Nat`;
overflow only matters in the cost-bound computation, where the code's
dedicated overflow-checked addition is modelled explicitly.  External
collaborators (routing backends, the solver, `TWRoute` feasibility tests)
are parameters of the embedded functions.  C++ exceptions are modelled
with `Except` / option-valued error slots.
-/

set_option maxHeartbeats 1000000

namespace vroom

/-- Error kinds of `vroom::ERROR`.  `INPUT` and `ROUTING` are from the code;
`OVERFLOW_` is the dedicated overflow condition of the cost-bound addition
primitive (`utils::add_without_overflow`, declared in `utils/helpers.h`,
which is not part of the two source files; modelled from the spec §7:
"an overflow condition raised by the cost-bound addition primitive"). -/
inductive ERROR where
  | INPUT
  | ROUTING
  | OVERFLOW_
deriving DecidableEq

/-- `vroom::Exception`: an error kind plus a message. -/
structure Exc where
  error : ERROR
  message : String
deriving DecidableEq

/-- `vroom::JOB_TYPE`. -/
inductive JOB_TYPE where
  | SINGLE
  | PICKUP
  | DELIVERY
deriving DecidableEq, Inhabited

/-- `vroom::STEP_TYPE`. -/
inductive STEP_TYPE where
  | START
  | JOB
  | BREAK
  | END
deriving DecidableEq, Inhabited

/-- Geographic coordinates (lon, lat), modelled as integers. -/
structure Coordinates where
  lon : Int
  lat : Int
deriving DecidableEq

/-- `vroom::Location`. `user_index` is true when the matrix index was
user-supplied on construction; `index` is the current index value
(user-supplied, or assigned by the registry via `set_index`); `coords`
is `some` when the location has coordinates. -/
structure Location where
  user_index : Bool
  index : Nat
  coords : Option Coordinates
deriving DecidableEq, Inhabited

/-- `Location::set_index`. -/
def Location.set_index (l : Location) (i : Nat) : Location :=
  { l with index := i }

/-- `Location::has_coordinates`. -/
def Location.has_coordinates (l : Location) : Bool :=
  l.coords.isSome

/-- Modelled from the spec: the equality key used by the
`_locations_to_index` map (class `Location`'s `operator==`/hash live in
`structures/vroom/location.h`, which is not among the source files).
Spec §3: "Two locations are equal iff their coordinates match (when index
is auto-assigned) or their indices match (when user-supplied)." -/
def locKey (l : Location) : Sum Nat (Option Coordinates) :=
  if l.user_index then Sum.inl l.index else Sum.inr l.coords

/-- A time window, as a pair of bounds. `vroom::TimeWindow` is defined in
a file not among the sources; only `is_default` matters here. -/
structure TimeWindow where
  start : Nat
  stop : Nat
deriving DecidableEq, Inhabited

/-- Modelled from the spec: the default (unbounded) time window
(`TimeWindow::is_default` is not among the source files; spec §3 speaks of
"a single 'unbounded' default window"). -/
def DEFAULT_TW : TimeWindow := { start := 0, stop := 4294967295 }

/-- `TimeWindow::is_default`. -/
def TimeWindow.is_default (tw : TimeWindow) : Bool :=
  tw = DEFAULT_TW

/-- `vroom::Job` (fields used by `input.cpp`). Amounts are vectors of
naturals; skills are a finite set of opaque tags. -/
structure Job where
  id : Nat
  type : JOB_TYPE
  location : Location
  delivery : List Nat
  pickup : List Nat
  skills : Finset Nat
  tws : List TimeWindow
  priority : Nat
deriving DecidableEq, Inhabited

/-- `Job::index()`: the job's resolved matrix index. -/
def Job.index (j : Job) : Nat := j.location.index

/-- A vehicle step (`vroom::Step` as used in `Input::check`): a step type,
the job type (meaningful when `typ = JOB`), an external id and a rank
(resolved during `check`). -/
structure VStep where
  typ : STEP_TYPE
  job_type : JOB_TYPE
  id : Nat
  rank : Nat
deriving DecidableEq, Inhabited

/-- `vroom::Vehicle` (fields used by `input.cpp`). `end_` stands for the
C++ member `end` (a Lean keyword). -/
structure Vehicle where
  id : Nat
  start : Option Location
  end_ : Option Location
  capacity : List Nat
  skills : Finset Nat
  tw : TimeWindow
  profile : String
  steps : List VStep
  break_id_to_rank : List (Nat × Nat)
deriving DecidableEq, Inhabited

/-- `Vehicle::has_start`. -/
def Vehicle.has_start (v : Vehicle) : Bool := v.start.isSome

/-- `Vehicle::has_end`. -/
def Vehicle.has_end (v : Vehicle) : Bool := v.end_.isSome

/-- Modelled from the spec: `Vehicle::has_same_locations` (vehicle.h is not
among the source files; spec §4.2: "true iff every vehicle pair so far
shares identical start/end").  Locations are compared by their registry
key. -/
def Vehicle.has_same_locations (v1 v2 : Vehicle) : Bool :=
  v1.start.map locKey = v2.start.map locKey
    && v1.end_.map locKey = v2.end_.map locKey

/-- Modelled from the spec: `Vehicle::has_same_profile` (vehicle.h is not
among the source files; spec §4.2: "every vehicle pair shares the same
profile name"). -/
def Vehicle.has_same_profile (v1 v2 : Vehicle) : Bool :=
  v1.profile = v2.profile

/-- `vroom::Matrix<Cost>`: a square cost matrix of the given size; `entry`
gives the cell values. -/
structure CostMatrix where
  size : Nat
  entry : Nat → Nat → Nat

/-- Lookup in an association list by key (models `std::unordered_map::find`,
first match wins; the maps in `Input` are only ever extended with keys that
are absent, so match order is immaterial). -/
def alookup {α β : Type} [DecidableEq α] (l : List (α × β)) (k : α) : Option β :=
  (l.find? (fun p => p.1 = k)).map (·.2)

/-- Insert into a list-modelled set (`std::unordered_set::insert`):
append the element when absent. -/
def insertSet {α : Type} [DecidableEq α] (l : List α) (a : α) : List α :=
  if a ∈ l then l else l ++ [a]

/-- `std::unordered_map::insert_or_assign`. -/
def insertOrAssign {α β : Type} [DecidableEq α]
    (l : List (α × β)) (k : α) (v : β) : List (α × β) :=
  if (alookup l k).isSome
  then l.map (fun p => if p.1 = k then (k, v) else p)
  else l ++ [(k, v)]

/-- The `vroom::Input` state (members of class `Input` used by
`input.cpp`; timing clocks are not modelled). -/
structure Input where
  no_addition_yet : Bool
  has_TW : Bool
  has_skills : Bool
  has_custom_location_index : Bool
  homogeneous_locations : Bool
  homogeneous_profiles : Bool
  geometry : Bool
  has_jobs : Bool
  has_shipments : Bool
  max_matrices_used_index : Nat
  all_locations_have_coords : Bool
  amount_size : Nat
  jobs : List Job
  vehicles : List Vehicle
  job_id_to_rank : List (Nat × Nat)
  pickup_id_to_rank : List (Nat × Nat)
  delivery_id_to_rank : List (Nat × Nat)
  locations : List Location
  locations_to_index : List (Sum Nat (Option Coordinates) × Nat)
  matrices_used_index : List Nat
  profiles : List String
  custom_matrices : List String
  matrices : List (String × CostMatrix)
  routing_wrappers : List String

/-- The `Input` constructor: flags as initialized by the constructor and
in-class member initializers (`_has_skills` / `_has_custom_location_index`
are only read after the first addition establishes them). -/
def Input.init (amount_size : Nat) : Input where
  no_addition_yet := true
  has_TW := false
  has_skills := false
  has_custom_location_index := false
  homogeneous_locations := true
  homogeneous_profiles := true
  geometry := false
  has_jobs := false
  has_shipments := false
  max_matrices_used_index := 0
  all_locations_have_coords := true
  amount_size := amount_size
  jobs := []
  vehicles := []
  job_id_to_rank := []
  pickup_id_to_rank := []
  delivery_id_to_rank := []
  locations := []
  locations_to_index := []
  matrices_used_index := []
  profiles := []
  custom_matrices := []
  matrices := []
  routing_wrappers := []

/-- The skills / location-index baseline block, appearing verbatim in both
`Input::check_job` (input.cpp:120-134) and `Input::add_vehicle`
(input.cpp:329-342). -/
def baseline_check (s : Input) (skills_nonempty : Bool)
    (has_location_index : Bool) : Except Exc Input :=
  if s.no_addition_yet then
    .ok { s with has_skills := skills_nonempty,
                 no_addition_yet := false,
                 has_custom_location_index := has_location_index }
  else if s.has_skills ≠ skills_nonempty then
    .error ⟨ERROR.INPUT, "Missing skills."⟩
  else if s.has_custom_location_index ≠ has_location_index then
    .error ⟨ERROR.INPUT, "Missing location index."⟩
  else .ok s

/-- The location-registry resolution block, appearing (inlined) in
`Input::check_job` (input.cpp:139-163) and twice in `Input::add_vehicle`
(start, input.cpp:249-274; end, input.cpp:295-320).  Returns the updated
state and the location with its index resolved. -/
def resolve_location (s : Input) (loc : Location) : Input × Location :=
  if !loc.user_index then
    -- Index not specified in input: reuse the stored index on hit,
    -- else assign the next sequential index and append.
    match alookup s.locations_to_index (locKey loc) with
    | some i => (s, loc.set_index i)
    | none =>
        let new_index := s.locations.length
        let loc' := loc.set_index new_index
        ({ s with locations := s.locations ++ [loc'],
                  locations_to_index :=
                    s.locations_to_index ++ [(locKey loc', new_index)] },
         loc')
  else
    -- Index provided in input: the registry only records the location
    -- (for the case a profile matrix must be computed).
    match alookup s.locations_to_index (locKey loc) with
    | some _ => (s, loc)
    | none =>
        ({ s with locations := s.locations ++ [loc],
                  locations_to_index :=
                    s.locations_to_index ++ [(locKey loc, s.locations.length)] },
         loc)

/-- Referenced-index bookkeeping performed after resolving a location
(input.cpp:165-168, 276-280, 322-326). -/
def register_used (s : Input) (loc : Location) : Input :=
  { s with matrices_used_index := insertSet s.matrices_used_index loc.index,
           max_matrices_used_index := max s.max_matrices_used_index loc.index,
           all_locations_have_coords :=
             s.all_locations_have_coords && loc.has_coordinates }

/-- `Input::check_job` (input.cpp:101-169).  The C++ function mutates the
job (just appended to `jobs`) through a reference; here it returns the
updated state (everything except the `jobs` list) and the updated job. -/
def check_job (s : Input) (job : Job) : Except Exc (Input × Job) := do
  if job.delivery.length ≠ s.amount_size then
    throw ⟨ERROR.INPUT,
      "Inconsistent delivery length: " ++ toString job.delivery.length ++
        " instead of " ++ toString s.amount_size ++ "."⟩
  if job.pickup.length ≠ s.amount_size then
    throw ⟨ERROR.INPUT,
      "Inconsistent pickup length: " ++ toString job.pickup.length ++
        " instead of " ++ toString s.amount_size ++ "."⟩
  let s ← baseline_check s (decide (job.skills ≠ ∅)) job.location.user_index
  let s := { s with has_TW :=
    s.has_TW || !(job.tws.length = 1 && (job.tws.headD DEFAULT_TW).is_default) }
  let (s, job') := resolve_location s job.location
  let s := register_used s job'
  pure (s, { job with location := job' })

/-- `Input::add_job` (input.cpp:171-183).  The C++ appends the job and then
runs `check_job` on `jobs.back()`; here the checked job replaces the
appended one on success. -/
def add_job (s : Input) (job : Job) : Except Exc Input := do
  if job.type ≠ JOB_TYPE.SINGLE then
    throw ⟨ERROR.INPUT, "Wrong job type."⟩
  if (alookup s.job_id_to_rank job.id).isSome then
    throw ⟨ERROR.INPUT, "Duplicate job id: " ++ toString job.id ++ "."⟩
  let s := { s with job_id_to_rank := s.job_id_to_rank ++ [(job.id, s.jobs.length)] }
  let (s', job') ← check_job s job
  pure { s' with jobs := s.jobs ++ [job'], has_jobs := true }

/-- `Input::add_shipment` (input.cpp:185-224). -/
def add_shipment (s : Input) (pickup delivery : Job) : Except Exc Input := do
  if pickup.priority ≠ delivery.priority then
    throw ⟨ERROR.INPUT, "Inconsistent shipment priority."⟩
  if pickup.pickup ≠ delivery.delivery then
    throw ⟨ERROR.INPUT, "Inconsistent shipment amount."⟩
  if pickup.skills.card ≠ delivery.skills.card then
    throw ⟨ERROR.INPUT, "Inconsistent shipment skills."⟩
  if ¬ (pickup.skills ⊆ delivery.skills) then
    throw ⟨ERROR.INPUT, "Inconsistent shipment skills."⟩
  if pickup.type ≠ JOB_TYPE.PICKUP then
    throw ⟨ERROR.INPUT, "Wrong pickup type."⟩
  if (alookup s.pickup_id_to_rank pickup.id).isSome then
    throw ⟨ERROR.INPUT, "Duplicate pickup id: " ++ toString pickup.id ++ "."⟩
  let s := { s with pickup_id_to_rank :=
    s.pickup_id_to_rank ++ [(pickup.id, s.jobs.length)] }
  let (s', pickup') ← check_job s pickup
  let s := { s' with jobs := s.jobs ++ [pickup'] }
  if delivery.type ≠ JOB_TYPE.DELIVERY then
    throw ⟨ERROR.INPUT, "Wrong delivery type."⟩
  if (alookup s.delivery_id_to_rank delivery.id).isSome then
    throw ⟨ERROR.INPUT, "Duplicate delivery id: " ++ toString delivery.id ++ "."⟩
  let s := { s with delivery_id_to_rank :=
    s.delivery_id_to_rank ++ [(delivery.id, s.jobs.length)] }
  let (s', delivery') ← check_job s delivery
  pure { s' with jobs := s.jobs ++ [delivery'], has_shipments := true }

/-- The start branch of `Input::add_vehicle` (input.cpp:243-281): resolve
and register the start location (when present); returns the updated
state, the updated vehicle and the value of `has_location_index`. -/
def add_vehicle_resolve_start (s : Input) (vehicle : Vehicle) :
    Input × Vehicle × Bool :=
  match vehicle.start with
  | none => (s, vehicle, false)
  | some start_loc =>
      let has_location_index := start_loc.user_index
      let (s, start_loc') := resolve_location s start_loc
      (register_used s start_loc',
        { vehicle with start := some start_loc' }, has_location_index)

/-- The end branch of `Input::add_vehicle` (input.cpp:283-327): check
start/end location-index consistency, then resolve and register the end
location (when present). -/
def add_vehicle_resolve_end (s : Input) (vehicle : Vehicle)
    (has_location_index : Bool) : Except Exc (Input × Vehicle × Bool) :=
  match vehicle.end_ with
  | none => .ok (s, vehicle, has_location_index)
  | some end_loc =>
      if vehicle.has_start && has_location_index ≠ end_loc.user_index then
        .error ⟨ERROR.INPUT, "Missing start_index or end_index."⟩
      else
        let has_location_index := end_loc.user_index
        let (s, end_loc') := resolve_location s end_loc
        .ok (register_used s end_loc',
          { vehicle with end_ := some end_loc' }, has_location_index)

/-- `Input::add_vehicle` (input.cpp:226-354).  The C++ appends the vehicle
first and mutates `vehicles.back()` in place while resolving start/end;
here the resolved vehicle replaces the appended one on success. -/
def add_vehicle (s : Input) (vehicle : Vehicle) : Except Exc Input := do
  if vehicle.capacity.length ≠ s.amount_size then
    throw ⟨ERROR.INPUT,
      "Inconsistent capacity length: " ++ toString vehicle.capacity.length ++
        " instead of " ++ toString s.amount_size ++ "."⟩
  let s := { s with has_TW := s.has_TW || !vehicle.tw.is_default }
  let (s, vehicle, has_location_index) := add_vehicle_resolve_start s vehicle
  let (s, vehicle, has_location_index) ←
    add_vehicle_resolve_end s vehicle has_location_index
  let s ← baseline_check s (decide (vehicle.skills ≠ ∅)) has_location_index
  -- Homogeneity flags (input.cpp:344-351): compare newest against first.
  let new_vehicles := s.vehicles ++ [vehicle]
  let s :=
    if new_vehicles.length > 1 then
      { s with homogeneous_locations := s.homogeneous_locations &&
                 (new_vehicles.headD vehicle).has_same_locations vehicle,
               homogeneous_profiles := s.homogeneous_profiles &&
                 (new_vehicles.headD vehicle).has_same_profile vehicle }
    else s
  pure { s with vehicles := new_vehicles,
                profiles := insertSet s.profiles vehicle.profile }

/-- `Input::set_matrix` (input.cpp:356-359). -/
def set_matrix (s : Input) (profile : String) (m : CostMatrix) : Input :=
  { s with custom_matrices := insertSet s.custom_matrices profile,
           matrices := insertOrAssign s.matrices profile m }


/-! ### Cost bound (`Input::check_cost_bound`, input.cpp:385-429) -/

/-- Modelled from the spec: the largest representable cost value.
`Cost` is an unsigned 32-bit integer in the repository's typedefs (not
among the source files); spec §4.3 speaks of "the cost type's range". -/
def COST_MAX : Nat := 4294967295

/-- Modelled from the spec: `utils::add_without_overflow`
(`utils/helpers.h` is not among the source files).  Spec §4.3: "an
overflow-detecting addition primitive that fails fast (signals a dedicated
overflow condition) rather than wrapping, on every partial sum". -/
def add_without_overflow (a b : Nat) : Except Exc Nat :=
  if COST_MAX < a + b then
    .error ⟨ERROR.OVERFLOW_, "Too high cost values in provided matrices."⟩
  else .ok (a + b)

/-- `max_cost_per_line[i]` after the double loop of input.cpp:392-397:
the maximum of `matrix[i][j]` over referenced `j`, for referenced `i`
(entries at unreferenced `i` keep their initial value 0). -/
def max_cost_per_line (s : Input) (m : CostMatrix) (i : Nat) : Nat :=
  if i ∈ s.matrices_used_index then
    s.matrices_used_index.foldl (fun acc j => max acc (m.entry i j)) 0
  else 0

/-- `max_cost_per_column[j]` after the double loop of input.cpp:392-397. -/
def max_cost_per_column (s : Input) (m : CostMatrix) (j : Nat) : Nat :=
  if j ∈ s.matrices_used_index then
    s.matrices_used_index.foldl (fun acc i => max acc (m.entry i j)) 0
  else 0

/-- The jobs loop of input.cpp:399-408: the running departure and arrival
bounds over all jobs, accumulated with `add_without_overflow`. -/
def jobs_bounds (s : Input) (m : CostMatrix) : Except Exc (Nat × Nat) :=
  s.jobs.foldlM
    (fun acc j => do
      let d ← add_without_overflow acc.1 (max_cost_per_line s m j.index)
      let a ← add_without_overflow acc.2 (max_cost_per_column s m j.index)
      pure (d, a))
    (0, 0)

/-- The vehicles loop of input.cpp:412-425: the running start and end
bounds, accumulated with `add_without_overflow`. -/
def vehicles_bounds (s : Input) (m : CostMatrix) : Except Exc (Nat × Nat) :=
  s.vehicles.foldlM
    (fun acc v => do
      let sb ← match v.start with
        | some l => add_without_overflow acc.1 (max_cost_per_line s m l.index)
        | none => pure acc.1
      let eb ← match v.end_ with
        | some l => add_without_overflow acc.2 (max_cost_per_column s m l.index)
        | none => pure acc.2
      pure (sb, eb))
    (0, 0)

/-- `Input::check_cost_bound` (input.cpp:385-429).  The C++ function
returns `void` and communicates only through the exception; the Lean
embedding additionally returns the computed bound. -/
def check_cost_bound (s : Input) (m : CostMatrix) : Except Exc Nat := do
  let (jobs_departure_bound, jobs_arrival_bound) ← jobs_bounds s m
  let jobs_bound := max jobs_departure_bound jobs_arrival_bound
  let (start_bound, end_bound) ← vehicles_bounds s m
  let bound ← add_without_overflow start_bound jobs_bound
  add_without_overflow bound end_bound

/-- The index sequence of a route: the vehicle's start (if any), then the
visited jobs' indices in visit order, then the vehicle's end (if any). -/
def route_nodes (v : Vehicle) (visited : List Job) : List Nat :=
  (v.start.map Location.index).toList ++ visited.map Job.index ++
    (v.end_.map Location.index).toList

/-- The cost of traversing a sequence of location indices in the given
cost matrix: the sum of the costs of consecutive arcs. -/
def path_cost (m : CostMatrix) : List Nat → Nat
  | i :: j :: rest => m.entry i j + path_cost m (j :: rest)
  | _ => 0

/-- The actual cost of the route in which vehicle `v` serves `visited` in
order, starting at its start location (when present) and finishing at its
end location (when present). -/
def route_cost (m : CostMatrix) (v : Vehicle) (visited : List Job) : Nat :=
  path_cost m (route_nodes v visited)

/-! ### Compatibility passes (input.cpp:431-517) -/

/-- `Input::set_skills_compatibility` (input.cpp:431-454), as the entry at
vehicle rank `v` and job rank `j` of the produced vehicle×job matrix:
all-true when the instance has no skills, else job skills ⊆ vehicle
skills. -/
def set_skills_compatibility (s : Input) (v j : Nat) : Bool :=
  if s.has_skills then
    decide (((s.jobs.getD j default).skills : Finset Nat)
      ⊆ (s.vehicles.getD v default).skills)
  else true

/-- The body computing `is_compatible` for job rank `j` of vehicle rank
`v` in `Input::set_extra_compatibility` (input.cpp:465-487).  The external
`TWRoute` feasibility tests (defined outside the source files) are the
parameters `capacity_ok` (is_valid_addition_for_capacity on the job's
pickup and delivery amounts), `tw_ok_single` (is_valid_addition_for_tw on
a single job rank) and `tw_ok_pair` (is_valid_addition_for_tw on the
pickup/delivery rank pair). -/
def extra_is_compatible (s : Input)
    (capacity_ok : Nat → List Nat → List Nat → Bool)
    (tw_ok_single : Nat → Nat → Bool) (tw_ok_pair : Nat → Nat → Nat → Bool)
    (v j : Nat) : Bool :=
  let job := s.jobs.getD j default
  let c := capacity_ok v job.pickup job.delivery
  if c && s.has_TW then
    if job.type = JOB_TYPE.SINGLE then c && tw_ok_single v j
    else c && tw_ok_pair v j (j + 1)
  else c

/-- Pointwise update of a function-represented compatibility row. -/
def updRow (row : Nat → Bool) (k : Nat) (b : Bool) : Nat → Bool :=
  fun k' => if k' = k then b else row k'

/-- The inner loop of `Input::set_extra_compatibility` (input.cpp:463-496)
for vehicle rank `v`, from job rank `j` on: entries still compatible are
re-tested; a shipment pickup and the next-in-line delivery are written
together, and the delivery rank is skipped. -/
def extra_loop (s : Input)
    (capacity_ok : Nat → List Nat → List Nat → Bool)
    (tw_ok_single : Nat → Nat → Bool) (tw_ok_pair : Nat → Nat → Nat → Bool)
    (v : Nat) (j : Nat) (row : Nat → Bool) : Nat → Bool :=
  if h : j < s.jobs.length then
    if row j then
      let c := extra_is_compatible s capacity_ok tw_ok_single tw_ok_pair v j
      if (s.jobs.getD j default).type = JOB_TYPE.PICKUP then
        extra_loop s capacity_ok tw_ok_single tw_ok_pair v (j + 2)
          (updRow (updRow row j c) (j + 1) c)
      else
        extra_loop s capacity_ok tw_ok_single tw_ok_pair v (j + 1)
          (updRow row j c)
    else extra_loop s capacity_ok tw_ok_single tw_ok_pair v (j + 1) row
  else row
termination_by s.jobs.length - j

/-- `Input::set_extra_compatibility` (input.cpp:456-498): the row of
vehicle rank `v` after the extra-feasibility pass, starting from the
skills-pass row. -/
def set_extra_compatibility (s : Input)
    (capacity_ok : Nat → List Nat → List Nat → Bool)
    (tw_ok_single : Nat → Nat → Bool) (tw_ok_pair : Nat → Nat → Nat → Bool)
    (v : Nat) : Nat → Bool :=
  extra_loop s capacity_ok tw_ok_single tw_ok_pair v 0
    (set_skills_compatibility s v)

/-- The inner job scan of `Input::set_vehicles_compatibility`
(input.cpp:507-514): whether some job rank below `nJobs` is feasible for
both vehicle ranks (the C++ loop breaks at the first shared feasible
job). -/
def shared_feasible_job (nJobs : Nat) (vjc : Nat → Nat → Bool)
    (v1 v2 : Nat) : Bool :=
  (List.range nJobs).any (fun j => vjc v1 j && vjc v2 j)

/-- Set the single entry `(a, b)` of a function-represented
vehicle×vehicle matrix to `true`. -/
def updVV (mat : Nat → Nat → Bool) (a b : Nat) : Nat → Nat → Bool :=
  fun i j => if i = a ∧ j = b then true else mat i j

/-- The `v2` loop of `Input::set_vehicles_compatibility`
(input.cpp:506-515) for a fixed `v1`, over the listed `v2` ranks: on a
shared feasible job, both `(v1,v2)` and `(v2,v1)` are set. -/
def vv_inner (nJobs : Nat) (vjc : Nat → Nat → Bool) (v1 : Nat)
    (mat : Nat → Nat → Bool) : List Nat → Nat → Nat → Bool
  | [] => mat
  | v2 :: rest =>
      let mat' := if shared_feasible_job nJobs vjc v1 v2
        then updVV (updVV mat v1 v2) v2 v1 else mat
      vv_inner nJobs vjc v1 mat' rest

/-- `Input::set_vehicles_compatibility` (input.cpp:500-517), over
`nVeh` vehicles and `nJobs` jobs with vehicle×job feasibility `vjc`:
initialize all-false, set the diagonal, and fill each pair
`(v1, v2), v1 < v2,` symmetrically when they share a feasible job. -/
def set_vehicles_compatibility (nVeh nJobs : Nat)
    (vjc : Nat → Nat → Bool) : Nat → Nat → Bool :=
  (List.range nVeh).foldl
    (fun mat v1 =>
      vv_inner nJobs vjc v1 (updVV mat v1 v1)
        (List.range' (v1 + 1) (nVeh - (v1 + 1))))
    (fun _ _ => false)

/-! ### Step-rank resolution (`Input::check`, input.cpp:708-793) -/

/-- The planned-id sets of input.cpp:709-711.  They are declared before
the vehicle loop, so they accumulate across all vehicles. -/
structure Planned where
  jobs : List Nat
  pickups : List Nat
  deliveries : List Nat
deriving DecidableEq, Inhabited

/-- The id→rank table matching a job type (`job_id_to_rank`,
`pickup_id_to_rank`, `delivery_id_to_rank`). -/
def rank_table (s : Input) : JOB_TYPE → List (Nat × Nat)
  | JOB_TYPE.SINGLE => s.job_id_to_rank
  | JOB_TYPE.PICKUP => s.pickup_id_to_rank
  | JOB_TYPE.DELIVERY => s.delivery_id_to_rank

/-- Processing of one step of one vehicle in `Input::check`
(input.cpp:716-792): break steps are resolved against the vehicle's own
break table; job steps are resolved against the id→rank table matching
the step's job type, and their id must not already be planned. -/
def resolve_step (s : Input) (v : Vehicle) (pl : Planned) (step : VStep) :
    Except Exc (VStep × Planned) := do
  let step ←
    if step.typ = STEP_TYPE.BREAK then
      match alookup v.break_id_to_rank step.id with
      | none => throw ⟨ERROR.INPUT,
          "Invalid break id " ++ toString step.id ++ " for vehicle " ++
            toString v.id ++ "."⟩
      | some r => pure { step with rank := r }
    else pure step
  if step.typ = STEP_TYPE.JOB then
    match step.job_type with
    | JOB_TYPE.SINGLE =>
        match alookup s.job_id_to_rank step.id with
        | none => throw ⟨ERROR.INPUT,
            "Invalid job id " ++ toString step.id ++ " for vehicle " ++
              toString v.id ++ "."⟩
        | some r =>
            let step := { step with rank := r }
            if step.id ∈ pl.jobs then
              throw ⟨ERROR.INPUT,
                "Duplicate job id " ++ toString step.id ++
                  " in input steps for vehicle " ++ toString v.id ++ "."⟩
            else pure (step, { pl with jobs := pl.jobs ++ [step.id] })
    | JOB_TYPE.PICKUP =>
        match alookup s.pickup_id_to_rank step.id with
        | none => throw ⟨ERROR.INPUT,
            "Invalid pickup id " ++ toString step.id ++ " for vehicle " ++
              toString v.id ++ "."⟩
        | some r =>
            let step := { step with rank := r }
            if step.id ∈ pl.pickups then
              throw ⟨ERROR.INPUT,
                "Duplicate pickup id " ++ toString step.id ++
                  " in input steps for vehicle " ++ toString v.id ++ "."⟩
            else pure (step, { pl with pickups := pl.pickups ++ [step.id] })
    | JOB_TYPE.DELIVERY =>
        match alookup s.delivery_id_to_rank step.id with
        | none => throw ⟨ERROR.INPUT,
            "Invalid delivery id " ++ toString step.id ++ " for vehicle " ++
              toString v.id ++ "."⟩
        | some r =>
            let step := { step with rank := r }
            if step.id ∈ pl.deliveries then
              throw ⟨ERROR.INPUT,
                "Duplicate delivery id " ++ toString step.id ++
                  " in input steps for vehicle " ++ toString v.id ++ "."⟩
            else pure (step, { pl with deliveries := pl.deliveries ++ [step.id] })
  else pure (step, pl)

/-- The step loop of `Input::check` for one vehicle. -/
def resolve_steps (s : Input) (v : Vehicle) (pl : Planned) :
    List VStep → Except Exc (List VStep × Planned)
  | [] => .ok ([], pl)
  | step :: rest => do
      let (step', pl') ← resolve_step s v pl step
      let (rest', pl'') ← resolve_steps s v pl' rest
      pure (step' :: rest', pl'')

/-- The vehicle loop of `Input::check` (input.cpp:713-793). -/
def resolve_vehicles (s : Input) (pl : Planned) :
    List Vehicle → Except Exc (List Vehicle × Planned)
  | [] => .ok ([], pl)
  | v :: rest => do
      let (steps', pl') ← resolve_steps s v pl v.steps
      let (rest', pl'') ← resolve_vehicles s pl' rest
      pure ({ v with steps := steps' } :: rest', pl'')

/-- The step-rank resolution phase of `Input::check` (input.cpp:708-793):
resolve all vehicle steps, starting from empty planned-id sets. -/
def resolve_step_ranks (s : Input) : Except Exc Input := do
  let (vs', _) ← resolve_vehicles s ⟨[], [], []⟩ s.vehicles
  pure { s with vehicles := vs' }

/-! ### Solution-side types (`route.cpp`, summary aggregation) -/

/-- `vroom::Route` (fields used by `input.cpp` and `route.cpp`). -/
structure Route where
  vehicle : Nat
  cost : Nat
  service : Nat
  duration : Nat
  waiting_time : Nat
  priority : Nat
  delivery : List Nat
  pickup : List Nat
  profile : String
  description : String
  distance : Nat
deriving DecidableEq, Inhabited

/-- The `Route` constructor of route.cpp:17-42: all fields from the
arguments, `distance` initialized to 0. -/
def Route.make (vehicle cost service duration waiting_time priority : Nat)
    (delivery pickup : List Nat) (profile description : String) : Route :=
  { vehicle := vehicle, cost := cost, service := service,
    duration := duration, waiting_time := waiting_time, priority := priority,
    delivery := delivery, pickup := pickup, profile := profile,
    description := description, distance := 0 }

/-- The fields of `vroom::Summary` used by `input.cpp`. -/
structure Summary where
  cost : Nat
  distance : Nat
  duration : Nat
  service : Nat
deriving DecidableEq, Inhabited

/-- The fields of `vroom::Solution` used by `input.cpp`. -/
structure Solution where
  routes : List Route
  summary : Summary
deriving DecidableEq, Inhabited

/-- One iteration of the geometry post-processing loop shared by
`Input::solve` (input.cpp:672-687) and `Input::check` (input.cpp:820-835):
look the route's profile up among the routing wrappers (fail with `INPUT`
when absent), enrich the route via the wrapper's `add_route_info`
(external; parameter `add_route_info`), and add the enriched route's
distance to the summary distance. -/
def add_geometry_step (routing_wrappers : List String)
    (add_route_info : String → Route → Route)
    (acc : List Route × Summary) (route : Route) :
    Except Exc (List Route × Summary) :=
  if route.profile ∈ routing_wrappers then
    let route' := add_route_info route.profile route
    .ok (acc.1 ++ [route'],
      { acc.2 with distance := acc.2.distance + route'.distance })
  else
    .error ⟨ERROR.INPUT,
      "Route geometry request with non-routable profile " ++
        route.profile ++ "."⟩

/-- The geometry post-processing of `Input::solve` / `Input::check`:
process every route of the solution in order. -/
def add_geometry (routing_wrappers : List String)
    (add_route_info : String → Route → Route) (sol : Solution) :
    Except Exc Solution := do
  let (routes', summary') ←
    sol.routes.foldlM (add_geometry_step routing_wrappers add_route_info)
      ([], sol.summary)
  pure { routes := routes', summary := summary' }

/-! ### Matrix assembly (`Input::set_matrices`, input.cpp:528-625) -/

/-- Round-robin sharding of profiles over `nb_buckets` worker buckets
(input.cpp:538-544): profile number `t_rank` goes to bucket
`t_rank % nb_buckets`. -/
def bucket_profiles (profiles : List String) (nb_buckets : Nat) :
    List (List String) :=
  (List.range nb_buckets).map (fun b =>
    (profiles.enum.filterMap (fun p =>
      if p.1 % nb_buckets = b then some p.2 else none)))

/-- The all-zero placeholder matrix registered before workers start. -/
def emptyMatrix : CostMatrix := { size := 0, entry := fun _ _ => 0 }

/-- The setup phase of `Input::set_matrices` (input.cpp:533-552): shard
profiles across `min(nb_thread, #profiles)` buckets and, for every profile
without a user-supplied matrix, create its routing wrapper and register an
empty placeholder matrix (so that workers only write to keys they own).
Backend construction details of `add_routing_wrapper` are external. -/
def set_matrices_setup (s : Input) (nb_thread : Nat) :
    Input × List (List String) :=
  let nb_buckets := min nb_thread s.profiles.length
  let to_create := s.profiles.filter (fun p => p ∉ s.custom_matrices)
  ({ s with routing_wrappers := s.routing_wrappers ++ to_create,
            matrices := s.matrices ++ to_create.map (fun p => (p, emptyMatrix)) },
   bucket_profiles s.profiles nb_buckets)

/-- The re-indexing of a backend matrix when location indices are
user-supplied (input.cpp:583-591): a dense matrix of size
`max_matrices_used_index + 1` whose cell
`(locations[i].index, locations[j].index)` holds the backend value
`m[i][j]`. -/
def reindex_matrix (s : Input) (m : CostMatrix) : CostMatrix :=
  { size := s.max_matrices_used_index + 1,
    entry :=
      (s.locations.enum.foldl (fun acc li =>
        s.locations.enum.foldl (fun acc lj =>
          fun a b =>
            if a = li.2.index ∧ b = lj.2.index then m.entry li.1 lj.1
            else acc a b) acc) (fun _ _ => 0)) }

/-- The per-profile body of the worker lambda `run_on_profiles`
(input.cpp:557-610), sequentially over the worker's profiles; the worker
stops at its first exception (the `try` wraps its whole loop) and reports
it.  `get_matrix` is the external routing backend call. -/
def run_on_profiles (get_matrix : String → List Location → Except Exc CostMatrix)
    (st : Input) : List String → Input × Option Exc
  | [] => (st, none)
  | profile :: rest =>
      -- assert(p_m != _matrices.end()) in the C++; the placeholder was
      -- registered during setup.
      let m0 := (alookup st.matrices profile).getD emptyMatrix
      let computed : Except Exc CostMatrix :=
        if m0.size = 0 then
          if st.locations.length = 1 then
            .ok { size := 1, entry := fun _ _ => 0 }
          else
            match get_matrix profile st.locations with
            | .error e => .error e
            | .ok m =>
                if !st.has_custom_location_index then .ok m
                else .ok (reindex_matrix st m)
        else .ok m0
      match computed with
      | .error e => (st, some e)
      | .ok m1 =>
          let st' := { st with matrices := insertOrAssign st.matrices profile m1 }
          if m1.size ≤ st'.max_matrices_used_index then
            (st', some ⟨ERROR.INPUT,
              "location_index exceeding matrix size for " ++ profile ++
                " profile."⟩)
          else
            match check_cost_bound st' m1 with
            | .error e => (st', some e)
            | .ok _ => run_on_profiles get_matrix st' rest

/-- All workers of `Input::set_matrices`, after setup: the final state and
the list of the workers' exceptions (at most one per worker), in worker
order.  Workers write to disjoint matrix keys, so running them in
sequence yields the same state and the same per-worker outcomes as the
concurrent execution. -/
def set_matrices_run (get_matrix : String → List Location → Except Exc CostMatrix)
    (s : Input) (nb_thread : Nat) : Input × List Exc :=
  let (s1, buckets) := set_matrices_setup s nb_thread
  buckets.foldl
    (fun acc bucket =>
      let (st', e) := run_on_profiles get_matrix acc.1 bucket
      (st', acc.2 ++ e.toList))
    (s1, [])

/-- The capture of worker exceptions into the single mutex-guarded shared
slot `ep` (input.cpp:605-609): each capture executes
`ep = std::current_exception()` under the mutex, unconditionally
overwriting the slot.  `captures` lists the raised exceptions in
mutex-acquisition order. -/
def capture_slot (captures : List Exc) : Option Exc :=
  captures.foldl (fun _ e => some e) none

/-- `Input::set_matrices` (input.cpp:528-625): the guard on custom
matrices without user-supplied location indices, the setup phase, the
workers, and the join followed by the re-raise of the shared slot.  The
mutex-acquisition order of the failing workers is the parameter
`captures` (concurrency is otherwise not modelled); theorems relate it to
the workers' exceptions by a permutation hypothesis.  Returns the
re-raised exception (if any) and the state as mutated so far. -/
def set_matrices_impl (get_matrix : String → List Location → Except Exc CostMatrix)
    (captures : List Exc) (s : Input) (nb_thread : Nat) : Option Exc × Input :=
  if s.custom_matrices ≠ [] ∧ s.has_custom_location_index = false then
    (some ⟨ERROR.INPUT, "Missing location index."⟩, s)
  else
    let (s2, _) := set_matrices_run get_matrix s nb_thread
    (capture_slot captures, s2)

/-! ### Orchestration (`Input::solve`, `Input::check`) -/

/-- The external collaborators of the problem builder: the routing
backends (`get_matrix`, `add_route_info`), the `TWRoute` feasibility
tests used by the extra-compatibility pass, the solving engine and the
ETA checker. -/
structure Externals where
  get_matrix : String → List Location → Except Exc CostMatrix
  capacity_ok : Nat → List Nat → List Nat → Bool
  tw_ok_single : Nat → Nat → Bool
  tw_ok_pair : Nat → Nat → Nat → Bool
  solver : Input → (Nat → Nat → Bool) → (Nat → Nat → Bool) → Except Exc Solution
  checker : Input → (Nat → Nat → Bool) → Except Exc Solution
  add_route_info : String → Route → Route

/-- The error kind of an `Except` outcome (`none` on success). -/
def errKind {α : Type} : Except Exc α → Option ERROR
  | .ok _ => none
  | .error e => some e.error

/-- `Input::solve` (input.cpp:635-698): geometry pre-check, matrix
assembly, compatibility passes, hand-off to the external solver, and the
geometry post-processing.  Timing bookkeeping is not modelled;
`set_vehicles_costs` only wires matrix pointers into vehicles and has no
further observable effect here. -/
def solve_impl (ext : Externals) (captures : List Exc) (s : Input)
    (nb_thread : Nat) : Except Exc Solution := do
  if s.geometry ∧ s.all_locations_have_coords = false then
    throw ⟨ERROR.INPUT, "Route geometry request with missing coordinates."⟩
  match set_matrices_impl ext.get_matrix captures s nb_thread with
  | (some e, _) => throw e
  | (none, s') => do
      let vjc := fun v j =>
        set_extra_compatibility s' ext.capacity_ok ext.tw_ok_single
          ext.tw_ok_pair v j
      let vvc := set_vehicles_compatibility s'.vehicles.length
        s'.jobs.length vjc
      let sol ← ext.solver s' vjc vvc
      if s.geometry then add_geometry s'.routing_wrappers ext.add_route_info sol
      else pure sol

/-- `Input::check` (input.cpp:700-852, the `USE_LIBGLPK` branch):
geometry pre-check, step-rank resolution, matrix assembly, the skills
pass only, hand-off to the external ETA checker, and the same geometry
post-processing as `solve`. -/
def check_impl (ext : Externals) (captures : List Exc) (s : Input)
    (nb_thread : Nat) : Except Exc Solution := do
  if s.geometry ∧ s.all_locations_have_coords = false then
    throw ⟨ERROR.INPUT, "Route geometry request with missing coordinates."⟩
  let s ← resolve_step_ranks s
  match set_matrices_impl ext.get_matrix captures s nb_thread with
  | (some e, _) => throw e
  | (none, s') => do
      let vjc := fun v j => set_skills_compatibility s' v j
      let sol ← ext.checker s' vjc
      if s.geometry then add_geometry s'.routing_wrappers ext.add_route_info sol
      else pure sol

/-! ### Instance construction sequences -/

/-- One ingestion call on an `Input`. -/
inductive AddOp where
  | job (j : Job)
  | shipment (pickup delivery : Job)
  | vehicle (v : Vehicle)

/-- Apply one ingestion call. -/
def apply_op (s : Input) : AddOp → Except Exc Input
  | AddOp.job j => add_job s j
  | AddOp.shipment p d => add_shipment s p d
  | AddOp.vehicle v => add_vehicle s v

/-- Apply a sequence of ingestion calls. -/
def apply_ops (s : Input) : List AddOp → Except Exc Input
  | [] => .ok s
  | op :: ops => do apply_ops (← apply_op s op) ops

/-- Shipment structure of a job list: every pickup is immediately
followed by a delivery with the same skill set (the adjacency invariant
relied upon by `set_extra_compatibility`). -/
def shipmentCoherent (jobs : List Job) : Prop :=
  ∀ i, i < jobs.length → (jobs.getD i default).type = JOB_TYPE.PICKUP →
    i + 1 < jobs.length ∧ (jobs.getD (i + 1) default).type = JOB_TYPE.DELIVERY ∧
      (jobs.getD i default).skills = (jobs.getD (i + 1) default).skills

/-! ### C1: error aggregation in `set_matrices` -/

theorem capture_slot_append (l : List Exc) (e : Exc) :
    capture_slot (l ++ [e]) = some e := by
  simp [capture_slot, List.foldl_append]

theorem capture_slot_eq_getLast? (l : List Exc) :
    capture_slot l = l.getLast? := by
  induction l using List.reverseRecOn with
  | nil => rfl
  | append_singleton l e _ =>
      rw [capture_slot_append, List.getLast?_concat]

/-- C1 (amended): in `set_matrices`, each worker's catch handler executes
`ep = std::current_exception()` under the mutex, unconditionally
overwriting the shared slot; hence after all workers join the slot holds
the LAST exception captured (in mutex-acquisition order), earlier captures
having been overwritten, and exactly that failure is re-raised; no failure
is raised when no worker failed. -/
theorem set_matrices_error_slot_holds_last_capture
    (get_matrix : String → List Location → Except Exc CostMatrix)
    (captures : List Exc) (s : Input) (nb_thread : Nat)
    (hguard : ¬(s.custom_matrices ≠ [] ∧ s.has_custom_location_index = false))
    (hperm : captures.Perm (set_matrices_run get_matrix s nb_thread).2) :
    (set_matrices_impl get_matrix captures s nb_thread).1 = captures.getLast? ∧
    ((set_matrices_impl get_matrix captures s nb_thread).1 = none ↔
      (set_matrices_run get_matrix s nb_thread).2 = []) := by
  have himpl : (set_matrices_impl get_matrix captures s nb_thread).1 =
      capture_slot captures := by
    simp [set_matrices_impl, hguard]
  constructor
  · rw [himpl, capture_slot_eq_getLast?]
  · rw [himpl, capture_slot_eq_getLast?]
    constructor
    · intro h
      have hc : captures = [] := by
        cases captures with
        | nil => rfl
        | cons a l => simp [List.getLast?_eq_getLast] at h
      exact (hc ▸ hperm).nil_eq.symm
    · intro h
      have hc : captures = [] := (h ▸ hperm).eq_nil
      simp [hc]

def c1_gm : String → List Location → Except Exc CostMatrix :=
  fun p _ => .error ⟨ERROR.ROUTING, p ++ " failed"⟩

def c1_loc0 : Location := { user_index := false, index := 0, coords := some ⟨0, 0⟩ }

def c1_loc1 : Location := { user_index := false, index := 1, coords := some ⟨1, 1⟩ }

def c1_input : Input :=
  { Input.init 1 with profiles := ["a", "b"], locations := [c1_loc0, c1_loc1] }

def c1_excA : Exc := ⟨ERROR.ROUTING, "a failed"⟩

def c1_excB : Exc := ⟨ERROR.ROUTING, "b failed"⟩

/-- C1 counterexample: two workers, one per profile, both fail; the
captures happen in raise order `[A, B]`.  The claim says the slot ends
holding the FIRST exception raised (`A`) and later ones are dropped; in
the code each capture overwrites the slot, so it ends holding `B`. -/
theorem set_matrices_error_slot_cex :
    [c1_excA, c1_excB].Perm (set_matrices_run c1_gm c1_input 2).2 ∧
    (set_matrices_impl c1_gm [c1_excA, c1_excB] c1_input 2).1 = some c1_excB ∧
    (set_matrices_impl c1_gm [c1_excA, c1_excB] c1_input 2).1 ≠ some c1_excA := by
  refine ⟨?_, by decide, by decide⟩
  decide

/-- C1 witness: the amended slot theorem applied at a concrete instance
with two failing workers. -/
theorem set_matrices_error_slot_witness :
    (set_matrices_impl c1_gm [c1_excA, c1_excB] c1_input 2).1 =
      ([c1_excA, c1_excB] : List Exc).getLast? ∧
    ((set_matrices_impl c1_gm [c1_excA, c1_excB] c1_input 2).1 = none ↔
      (set_matrices_run c1_gm c1_input 2).2 = []) :=
  set_matrices_error_slot_holds_last_capture c1_gm [c1_excA, c1_excB] c1_input 2
    (by decide) (by decide)

/-! ### Error kinds of the ingestion / resolution throws -/

theorem baseline_check_ok_of_started {s : Input} {sk loc : Bool} {s' : Input}
    (hs : s.no_addition_yet = false)
    (h : baseline_check s sk loc = .ok s') :
    s' = s ∧ s.has_skills = sk ∧ s.has_custom_location_index = loc := by
  unfold baseline_check at h
  rw [hs] at h
  simp only [Bool.false_eq_true, if_false] at h
  split at h
  · exact absurd h (by simp)
  · split at h
    · exact absurd h (by simp)
    · exact ⟨by injection h with h; exact h.symm, by tauto, by tauto⟩

theorem baseline_check_ok_of_fresh {s : Input} {sk loc : Bool} {s' : Input}
    (hs : s.no_addition_yet = true)
    (h : baseline_check s sk loc = .ok s') :
    s' = { s with has_skills := sk, no_addition_yet := false,
                  has_custom_location_index := loc } := by
  unfold baseline_check at h
  rw [hs] at h
  simp only [if_true] at h
  injection h with h
  exact h.symm

theorem baseline_check_err {s : Input} {sk loc : Bool} {e : Exc}
    (h : baseline_check s sk loc = .error e) : e.error = ERROR.INPUT := by
  unfold baseline_check at h
  split at h
  · exact absurd h (by simp)
  · split at h
    · injection h with h; rw [← h]
    · split at h
      · injection h with h; rw [← h]
      · exact absurd h (by simp)

theorem resolve_step_err {s : Input} {v : Vehicle} {pl : Planned} {step : VStep}
    {e : Exc} (h : resolve_step s v pl step = .error e) :
    e.error = ERROR.INPUT := by
  unfold resolve_step at h
  simp only [bind, Except.bind, pure, throw, throwThe, MonadExceptOf.throw,
    Except.pure] at h
  repeat' split at h
  all_goals first
    | (injection h with h; rw [← h])
    | exact absurd h (by simp)

theorem resolve_steps_err {s : Input} {v : Vehicle} {steps : List VStep} :
    ∀ {pl : Planned} {e : Exc},
      resolve_steps s v pl steps = .error e → e.error = ERROR.INPUT := by
  induction steps with
  | nil => intro pl e h; simp [resolve_steps] at h
  | cons step rest ih =>
      intro pl e h
      rw [resolve_steps] at h
      simp only [bind, Except.bind] at h
      cases h1 : resolve_step s v pl step with
      | error e1 =>
          simp only [h1] at h
          injection h with h
          exact h ▸ resolve_step_err h1
      | ok p =>
          obtain ⟨st', pl'⟩ := p
          simp only [h1] at h
          cases h2 : resolve_steps s v pl' rest with
          | error e2 =>
              simp only [h2] at h
              injection h with h
              exact h ▸ ih h2
          | ok q =>
              obtain ⟨l, pl''⟩ := q
              simp [h2, pure, Except.pure] at h

theorem resolve_vehicles_err {s : Input} {vs : List Vehicle} :
    ∀ {pl : Planned} {e : Exc},
      resolve_vehicles s pl vs = .error e → e.error = ERROR.INPUT := by
  induction vs with
  | nil => intro pl e h; simp [resolve_vehicles] at h
  | cons v rest ih =>
      intro pl e h
      rw [resolve_vehicles] at h
      simp only [bind, Except.bind] at h
      cases h1 : resolve_steps s v pl v.steps with
      | error e1 =>
          simp only [h1] at h
          injection h with h
          exact h ▸ resolve_steps_err h1
      | ok p =>
          obtain ⟨steps', pl'⟩ := p
          simp only [h1] at h
          cases h2 : resolve_vehicles s pl' rest with
          | error e2 =>
              simp only [h2] at h
              injection h with h
              exact h ▸ ih h2
          | ok q =>
              obtain ⟨vs', pl''⟩ := q
              simp [h2, pure, Except.pure] at h

theorem resolve_step_ranks_err {s : Input} {e : Exc}
    (h : resolve_step_ranks s = .error e) : e.error = ERROR.INPUT := by
  unfold resolve_step_ranks at h
  simp only [bind, Except.bind] at h
  cases h1 : resolve_vehicles s ⟨[], [], []⟩ s.vehicles with
  | error e1 =>
      simp only [h1] at h
      injection h with h
      exact h ▸ resolve_vehicles_err h1
  | ok p =>
      obtain ⟨vs', pl'⟩ := p
      simp [h1, pure, Except.pure] at h

theorem resolve_step_ranks_ok_fields {s s' : Input}
    (h : resolve_step_ranks s = .ok s') :
    s'.custom_matrices = s.custom_matrices ∧
      s'.has_custom_location_index = s.has_custom_location_index := by
  unfold resolve_step_ranks at h
  simp only [bind, Except.bind] at h
  cases h1 : resolve_vehicles s ⟨[], [], []⟩ s.vehicles with
  | error e1 => simp [h1] at h
  | ok p =>
      obtain ⟨vs', pl'⟩ := p
      simp only [h1, pure, Except.pure] at h
      injection h with h
      rw [← h]
      exact ⟨rfl, rfl⟩

/-! ### C10: custom matrices require user-supplied location indices -/

/-- C10: if a custom cost matrix was supplied via `set_matrix` but the
location-index mode is not user-supplied, `set_matrices` throws `INPUT`
immediately, leaving the state untouched (no routing wrapper created, no
worker run, no matrix assembled), and consequently every `solve` or
`check` on such an instance fails with an `INPUT` error. -/
theorem set_matrices_custom_requires_index (ext : Externals)
    (captures : List Exc) (s : Input) (nb_thread : Nat)
    (h1 : s.custom_matrices ≠ []) (h2 : s.has_custom_location_index = false) :
    set_matrices_impl ext.get_matrix captures s nb_thread =
      (some ⟨ERROR.INPUT, "Missing location index."⟩, s) ∧
    errKind (solve_impl ext captures s nb_thread) = some ERROR.INPUT ∧
    errKind (check_impl ext captures s nb_thread) = some ERROR.INPUT := by
  have hsm : ∀ t : Input, t.custom_matrices = s.custom_matrices →
      t.has_custom_location_index = s.has_custom_location_index →
      set_matrices_impl ext.get_matrix captures t nb_thread =
        (some ⟨ERROR.INPUT, "Missing location index."⟩, t) := by
    intro t ht1 ht2
    unfold set_matrices_impl
    rw [if_pos ⟨by rw [ht1]; exact h1, by rw [ht2]; exact h2⟩]
  refine ⟨hsm s rfl rfl, ?_, ?_⟩
  · unfold solve_impl
    by_cases hg : s.geometry ∧ s.all_locations_have_coords = false
    · simp [hg, errKind, bind, Except.bind, pure, Except.pure, throw,
        throwThe, MonadExceptOf.throw]
    · simp only [hg, if_false, bind, Except.bind, pure, Except.pure, throw,
        throwThe, MonadExceptOf.throw, hsm s rfl rfl]
      rfl
  · unfold check_impl
    by_cases hg : s.geometry ∧ s.all_locations_have_coords = false
    · simp [hg, errKind, bind, Except.bind, pure, Except.pure, throw,
        throwThe, MonadExceptOf.throw]
    · simp only [hg, if_false, bind, Except.bind, pure, Except.pure, throw,
        throwThe, MonadExceptOf.throw]
      cases hr : resolve_step_ranks s with
      | error e =>
          simp only [errKind]
          rw [resolve_step_ranks_err hr]
      | ok s2 =>
          obtain ⟨hc1, hc2⟩ := resolve_step_ranks_ok_fields hr
          simp only [hsm s2 hc1 hc2]
          rfl

def c10_matrix : CostMatrix := { size := 2, entry := fun _ _ => 1 }

def c10_input : Input := set_matrix (Input.init 0) "car" c10_matrix

/-- A set of trivial external collaborators, for witnesses. -/
def ext0 : Externals where
  get_matrix := fun _ _ => .ok { size := 1, entry := fun _ _ => 0 }
  capacity_ok := fun _ _ _ => true
  tw_ok_single := fun _ _ => true
  tw_ok_pair := fun _ _ _ => true
  solver := fun _ _ _ => .ok { routes := [], summary := ⟨0, 0, 0, 0⟩ }
  checker := fun _ _ => .ok { routes := [], summary := ⟨0, 0, 0, 0⟩ }
  add_route_info := fun _ r => r

/-- C10 witness: the theorem applied to an instance that received one
custom matrix and whose location-index mode is auto-assigned. -/
theorem set_matrices_custom_requires_index_witness :
    set_matrices_impl ext0.get_matrix [] c10_input 1 =
      (some ⟨ERROR.INPUT, "Missing location index."⟩, c10_input) ∧
    errKind (solve_impl ext0 [] c10_input 1) = some ERROR.INPUT ∧
    errKind (check_impl ext0 [] c10_input 1) = some ERROR.INPUT :=
  set_matrices_custom_requires_index ext0 [] c10_input 1
    (by decide) (by decide)

/-! ### C3: geometry post-processing after solving -/

theorem add_geometry_fold_ok (wrappers : List String)
    (enrich : String → Route → Route) :
    ∀ (routes : List Route) (accR : List Route) (accS : Summary),
      (∀ r ∈ routes, r.profile ∈ wrappers) →
      routes.foldlM (add_geometry_step wrappers enrich) (accR, accS) =
        .ok (accR ++ routes.map (fun r => enrich r.profile r),
          { accS with distance := accS.distance +
              (routes.map (fun r => (enrich r.profile r).distance)).sum }) := by
  intro routes
  induction routes with
  | nil => intro accR accS _; simp [List.foldlM, pure, Except.pure]
  | cons r rest ih =>
      intro accR accS h
      have hr : r.profile ∈ wrappers := h r (List.mem_cons_self r rest)
      have hrest : ∀ x ∈ rest, x.profile ∈ wrappers :=
        fun x hx => h x (List.mem_cons_of_mem r hx)
      simp only [List.foldlM_cons, add_geometry_step, if_pos hr, bind,
        Except.bind]
      rw [ih (accR ++ [enrich r.profile r])
        { accS with distance := accS.distance + (enrich r.profile r).distance }
        hrest]
      simp [Nat.add_assoc]

theorem add_geometry_fold_missing (wrappers : List String)
    (enrich : String → Route → Route) :
    ∀ (routes : List Route) (accR : List Route) (accS : Summary),
      (∃ r ∈ routes, r.profile ∉ wrappers) →
      errKind (routes.foldlM (add_geometry_step wrappers enrich) (accR, accS))
        = some ERROR.INPUT := by
  intro routes
  induction routes with
  | nil => intro accR accS h; simp at h
  | cons r rest ih =>
      intro accR accS h
      by_cases hr : r.profile ∈ wrappers
      · have hrest : ∃ x ∈ rest, x.profile ∉ wrappers := by
          obtain ⟨x, hx, hxw⟩ := h
          rcases List.mem_cons.mp hx with heq | hm
          · exact absurd (heq ▸ hr) hxw
          · exact ⟨x, hm, hxw⟩
        simp only [List.foldlM_cons, add_geometry_step, if_pos hr, bind,
          Except.bind]
        exact ih _ _ hrest
      · simp [List.foldlM_cons, add_geometry_step, if_neg hr, bind,
          Except.bind, errKind]

/-- C3 (amended): when geometry was requested, after the solver returns
each produced route's profile is looked up among the routing wrappers,
the call fails with `INPUT` if a route's profile has no wrapper, the
wrapper's route-enrichment call is invoked on the route, and the summary
accumulates the total DISTANCE across routes; the summary duration and
service fields are left untouched by this loop. -/
theorem solve_geometry_postprocessing (wrappers : List String)
    (enrich : String → Route → Route) (sol : Solution) :
    ((∀ r ∈ sol.routes, r.profile ∈ wrappers) →
      add_geometry wrappers enrich sol = .ok
        { routes := sol.routes.map (fun r => enrich r.profile r),
          summary := { sol.summary with distance := sol.summary.distance +
            (sol.routes.map (fun r => (enrich r.profile r).distance)).sum } }) ∧
    ((∃ r ∈ sol.routes, r.profile ∉ wrappers) →
      errKind (add_geometry wrappers enrich sol) = some ERROR.INPUT) := by
  constructor
  · intro h
    unfold add_geometry
    rw [add_geometry_fold_ok wrappers enrich sol.routes [] sol.summary h]
    simp [bind, Except.bind, pure, Except.pure]
  · intro h
    unfold add_geometry
    have := add_geometry_fold_missing wrappers enrich sol.routes [] sol.summary h
    cases hf : sol.routes.foldlM (add_geometry_step wrappers enrich)
        ([], sol.summary) with
    | error e =>
        simp only [hf, errKind] at this ⊢
        simpa [bind, Except.bind, errKind] using this
    | ok p => rw [hf] at this; simp [errKind] at this

def c3_route : Route :=
  { vehicle := 0, cost := 0, service := 7, duration := 5, waiting_time := 0,
    priority := 0, delivery := [], pickup := [], profile := "car",
    description := "", distance := 0 }

def c3_sol : Solution :=
  { routes := [c3_route], summary := ⟨0, 0, 0, 0⟩ }

def c3_enrich : String → Route → Route := fun _ r => { r with distance := 3 }

def c3_expected : Solution :=
  { routes := [{ c3_route with distance := 3 }],
    summary := { cost := 0, distance := 3, duration := 0, service := 0 } }

/-- C3 counterexample: the geometry loop adds only `route.distance` to the
summary (input.cpp:686); with one route of duration 5 and service 7 the
resulting summary keeps duration 0 and service 0, so duration and service
are NOT accumulated across routes as the claim states. -/
theorem solve_geometry_accumulation_cex :
    add_geometry ["car"] c3_enrich c3_sol = .ok c3_expected ∧
    ¬(c3_expected.summary.duration =
        c3_sol.summary.duration + (c3_expected.routes.map Route.duration).sum) ∧
    ¬(c3_expected.summary.service =
        c3_sol.summary.service + (c3_expected.routes.map Route.service).sum) := by
  refine ⟨by rfl, by decide, by decide⟩

/-- C3 witness: the amended theorem applied to the concrete solution. -/
theorem solve_geometry_postprocessing_witness :
    add_geometry ["car"] c3_enrich c3_sol = .ok
      { routes := c3_sol.routes.map (fun r => c3_enrich r.profile r),
        summary := { c3_sol.summary with distance := c3_sol.summary.distance +
          (c3_sol.routes.map (fun r => (c3_enrich r.profile r).distance)).sum } } :=
  (solve_geometry_postprocessing ["car"] c3_enrich c3_sol).1 (by decide)

/-! ### C6: vehicle-vehicle compatibility -/

theorem mem_range'_iff (s n m : Nat) :
    m ∈ List.range' s n ↔ s ≤ m ∧ m < s + n := by
  rw [List.mem_range']
  constructor
  · rintro ⟨i, hi, rfl⟩; omega
  · rintro ⟨h1, h2⟩; exact ⟨m - s, by omega, by omega⟩

theorem shared_feasible_job_iff (nJobs : Nat) (vjc : Nat → Nat → Bool)
    (v1 v2 : Nat) :
    shared_feasible_job nJobs vjc v1 v2 = true ↔
      ∃ j, j < nJobs ∧ vjc v1 j = true ∧ vjc v2 j = true := by
  simp [shared_feasible_job, List.any_eq_true, List.mem_range,
    Bool.and_eq_true]

theorem shared_feasible_job_symm (nJobs : Nat) (vjc : Nat → Nat → Bool)
    (v1 v2 : Nat) :
    shared_feasible_job nJobs vjc v1 v2 =
      shared_feasible_job nJobs vjc v2 v1 := by
  rw [Bool.eq_iff_iff, shared_feasible_job_iff, shared_feasible_job_iff]
  constructor
  · rintro ⟨j, hj, ha, hb⟩; exact ⟨j, hj, hb, ha⟩
  · rintro ⟨j, hj, ha, hb⟩; exact ⟨j, hj, hb, ha⟩

theorem updVV_true_iff (mat : Nat → Nat → Bool) (x y a b : Nat) :
    (updVV mat x y) a b = true ↔ (a = x ∧ b = y) ∨ mat a b = true := by
  by_cases h : a = x ∧ b = y <;> simp [updVV, h]

theorem vv_inner_true_iff (nJobs : Nat) (vjc : Nat → Nat → Bool) (v1 : Nat) :
    ∀ (l : List Nat) (mat : Nat → Nat → Bool) (a b : Nat),
      (vv_inner nJobs vjc v1 mat l) a b = true ↔
        mat a b = true ∨
        (a = v1 ∧ b ∈ l ∧ shared_feasible_job nJobs vjc v1 b = true) ∨
        (b = v1 ∧ a ∈ l ∧ shared_feasible_job nJobs vjc v1 a = true) := by
  intro l
  induction l with
  | nil => intro mat a b; simp [vv_inner]
  | cons v2 rest ih =>
      intro mat a b
      rw [vv_inner]
      by_cases hsh : shared_feasible_job nJobs vjc v1 v2 = true
      · simp only [if_pos hsh]
        rw [ih]
        simp only [updVV_true_iff, List.mem_cons]
        constructor
        · rintro ((⟨ha, hb⟩ | ⟨ha, hb⟩ | hm) | ⟨ha, hb, hs⟩ | ⟨hb, ha, hs⟩)
          · exact Or.inr (Or.inr ⟨hb, Or.inl ha, ha ▸ hsh⟩)
          · exact Or.inr (Or.inl ⟨ha, Or.inl hb, hb ▸ hsh⟩)
          · exact Or.inl hm
          · exact Or.inr (Or.inl ⟨ha, Or.inr hb, hs⟩)
          · exact Or.inr (Or.inr ⟨hb, Or.inr ha, hs⟩)
        · rintro (hm | ⟨ha, hb | hb, hs⟩ | ⟨hb, ha | ha, hs⟩)
          · exact Or.inl (Or.inr (Or.inr hm))
          · exact Or.inl (Or.inr (Or.inl ⟨ha, hb⟩))
          · exact Or.inr (Or.inl ⟨ha, hb, hs⟩)
          · exact Or.inl (Or.inl ⟨ha, hb⟩)
          · exact Or.inr (Or.inr ⟨hb, ha, hs⟩)
      · simp only [if_neg hsh]
        rw [ih]
        simp only [List.mem_cons]
        constructor
        · rintro (hm | ⟨ha, hb, hs⟩ | ⟨hb, ha, hs⟩)
          · exact Or.inl hm
          · exact Or.inr (Or.inl ⟨ha, Or.inr hb, hs⟩)
          · exact Or.inr (Or.inr ⟨hb, Or.inr ha, hs⟩)
        · rintro (hm | ⟨ha, hb | hb, hs⟩ | ⟨hb, ha | ha, hs⟩)
          · exact Or.inl hm
          · exact absurd (hb ▸ hs) hsh
          · exact Or.inr (Or.inl ⟨ha, hb, hs⟩)
          · exact absurd (ha ▸ hs) hsh
          · exact Or.inr (Or.inr ⟨hb, ha, hs⟩)

/-- The writes performed by the `v1` iteration of the outer loop of
`set_vehicles_compatibility`. -/
def rowWrites (nVeh nJobs : Nat) (vjc : Nat → Nat → Bool)
    (v1 a b : Nat) : Prop :=
  (a = v1 ∧ b = v1) ∨
  (a = v1 ∧ b ∈ List.range' (v1 + 1) (nVeh - (v1 + 1)) ∧
    shared_feasible_job nJobs vjc v1 b = true) ∨
  (b = v1 ∧ a ∈ List.range' (v1 + 1) (nVeh - (v1 + 1)) ∧
    shared_feasible_job nJobs vjc v1 a = true)

theorem vv_fold_true_iff (nVeh nJobs : Nat) (vjc : Nat → Nat → Bool) :
    ∀ (l : List Nat) (mat : Nat → Nat → Bool) (a b : Nat),
      ((l.foldl (fun mat v1 =>
          vv_inner nJobs vjc v1 (updVV mat v1 v1)
            (List.range' (v1 + 1) (nVeh - (v1 + 1)))) mat) a b = true) ↔
        mat a b = true ∨ ∃ v1 ∈ l, rowWrites nVeh nJobs vjc v1 a b := by
  intro l
  induction l with
  | nil => intro mat a b; simp
  | cons v1 rest ih =>
      intro mat a b
      rw [List.foldl_cons, ih]
      rw [vv_inner_true_iff, updVV_true_iff]
      simp only [List.mem_cons, rowWrites]
      constructor
      · rintro ((((⟨ha, hb⟩ | hm) | hrow) | ⟨w, hw, hwr⟩))
        · exact Or.inr ⟨v1, Or.inl rfl, Or.inl ⟨ha, hb⟩⟩
        · exact Or.inl hm
        · exact Or.inr ⟨v1, Or.inl rfl, Or.inr hrow⟩
        · exact Or.inr ⟨w, Or.inr hw, hwr⟩
      · rintro (hm | ⟨w, hw | hw, hwr⟩)
        · exact Or.inl (Or.inl (Or.inr hm))
        · subst hw
          rcases hwr with h | h
          · exact Or.inl (Or.inl (Or.inl h))
          · exact Or.inl (Or.inr h)
        · exact Or.inr ⟨w, hw, hwr⟩

theorem set_vehicles_compatibility_true_iff (nVeh nJobs : Nat)
    (vjc : Nat → Nat → Bool) (a b : Nat) :
    set_vehicles_compatibility nVeh nJobs vjc a b = true ↔
      ∃ v1, v1 < nVeh ∧ rowWrites nVeh nJobs vjc v1 a b := by
  unfold set_vehicles_compatibility
  rw [vv_fold_true_iff]
  simp [List.mem_range]

/-- C6: after `set_vehicles_compatibility`, two distinct vehicle ranks are
compatible iff some job rank is feasible for both in the vehicle×job
matrix; the relation is symmetric, and every vehicle rank is compatible
with itself. -/
theorem vehicles_compatibility_characterization (nVeh nJobs : Nat)
    (vjc : Nat → Nat → Bool) (v1 v2 : Nat)
    (h1 : v1 < nVeh) (h2 : v2 < nVeh) :
    (v1 ≠ v2 →
      (set_vehicles_compatibility nVeh nJobs vjc v1 v2 = true ↔
        ∃ j, j < nJobs ∧ vjc v1 j = true ∧ vjc v2 j = true)) ∧
    set_vehicles_compatibility nVeh nJobs vjc v1 v2 =
      set_vehicles_compatibility nVeh nJobs vjc v2 v1 ∧
    set_vehicles_compatibility nVeh nJobs vjc v1 v1 = true := by
  have key : ∀ a b, a < nVeh → b < nVeh → a ≠ b →
      (set_vehicles_compatibility nVeh nJobs vjc a b = true ↔
        shared_feasible_job nJobs vjc a b = true) := by
    intro a b ha hb hne
    rw [set_vehicles_compatibility_true_iff]
    constructor
    · rintro ⟨w, hw, hwr | hwr | hwr⟩
      · exact absurd (hwr.1.trans hwr.2.symm) hne
      · obtain ⟨haw, hbw, hs⟩ := hwr
        exact haw ▸ hs
      · obtain ⟨hbw, haw, hs⟩ := hwr
        rw [shared_feasible_job_symm]
        exact hbw ▸ hs
    · intro hs
      rcases Nat.lt_or_ge a b with hab | hab
      · refine ⟨a, ha, Or.inr (Or.inl ⟨rfl, ?_, hs⟩)⟩
        rw [mem_range'_iff]
        omega
      · have hba : b < a := by omega
        refine ⟨b, hb, Or.inr (Or.inr ⟨rfl, ?_, ?_⟩)⟩
        · rw [mem_range'_iff]
          omega
        · rw [shared_feasible_job_symm]
          exact hs
  have diag : ∀ a, a < nVeh →
      set_vehicles_compatibility nVeh nJobs vjc a a = true := by
    intro a ha
    rw [set_vehicles_compatibility_true_iff]
    exact ⟨a, ha, Or.inl ⟨rfl, rfl⟩⟩
  refine ⟨?_, ?_, diag v1 h1⟩
  · intro hne
    rw [key v1 v2 h1 h2 hne, shared_feasible_job_iff]
  · by_cases hne : v1 = v2
    · rw [hne]
    · rw [Bool.eq_iff_iff, key v1 v2 h1 h2 hne,
        key v2 v1 h2 h1 (Ne.symm hne),
        shared_feasible_job_symm nJobs vjc v2 v1]

/-- C6 witness: the characterization applied at a concrete 2-vehicle,
1-job feasibility matrix. -/
theorem vehicles_compatibility_characterization_witness :
    (0 ≠ 1 →
      (set_vehicles_compatibility 2 1 (fun _ _ => true) 0 1 = true ↔
        ∃ j, j < 1 ∧ (fun _ _ => true) 0 j = true ∧
          (fun _ _ => true) 1 j = true)) ∧
    set_vehicles_compatibility 2 1 (fun _ _ => true) 0 1 =
      set_vehicles_compatibility 2 1 (fun _ _ => true) 1 0 ∧
    set_vehicles_compatibility 2 1 (fun _ _ => true) 0 0 = true :=
  vehicles_compatibility_characterization 2 1 (fun _ _ => true) 0 1
    (by decide) (by decide)

/-! ### C7: sticky skill-usage and location-index-mode flags -/

theorem resolve_location_flags (s : Input) (loc : Location) :
    (resolve_location s loc).1.no_addition_yet = s.no_addition_yet ∧
    (resolve_location s loc).1.has_skills = s.has_skills ∧
    (resolve_location s loc).1.has_custom_location_index =
      s.has_custom_location_index := by
  unfold resolve_location
  repeat' split
  all_goals exact ⟨rfl, rfl, rfl⟩

theorem register_used_flags (s : Input) (loc : Location) :
    (register_used s loc).no_addition_yet = s.no_addition_yet ∧
    (register_used s loc).has_skills = s.has_skills ∧
    (register_used s loc).has_custom_location_index =
      s.has_custom_location_index :=
  ⟨rfl, rfl, rfl⟩

theorem check_job_err {s : Input} {job : Job} {e : Exc}
    (h : check_job s job = .error e) : e.error = ERROR.INPUT := by
  unfold check_job at h
  simp only [bind, Except.bind, pure, Except.pure, throw, throwThe,
    MonadExceptOf.throw] at h
  split at h
  · injection h with h; rw [← h]
  · split at h
    · injection h with h; rw [← h]
    · cases hb : baseline_check s (decide (job.skills ≠ ∅))
          job.location.user_index with
      | error e1 =>
          simp only [hb] at h
          injection h with h
          exact h ▸ baseline_check_err hb
      | ok s1 =>
          simp only [hb] at h
          rcases hres : resolve_location
            { s1 with has_TW := s1.has_TW ||
                !(job.tws.length = 1 && (job.tws.headD DEFAULT_TW).is_default) }
            job.location with ⟨s3, job2⟩
          rw [hres] at h
          exact absurd h (by simp)

theorem check_job_flags {s : Input} {job : Job} {s' : Input} {job' : Job}
    (h : check_job s job = .ok (s', job')) :
    (s.no_addition_yet = true →
       s'.no_addition_yet = false ∧
       s'.has_skills = decide (job.skills ≠ ∅) ∧
       s'.has_custom_location_index = job.location.user_index) ∧
    (s.no_addition_yet = false →
       s'.no_addition_yet = false ∧
       s'.has_skills = s.has_skills ∧
       s'.has_custom_location_index = s.has_custom_location_index ∧
       s.has_skills = decide (job.skills ≠ ∅) ∧
       s.has_custom_location_index = job.location.user_index) := by
  unfold check_job at h
  simp only [bind, Except.bind, pure, Except.pure, throw, throwThe,
    MonadExceptOf.throw] at h
  split at h
  · exact absurd h (by simp)
  · split at h
    · exact absurd h (by simp)
    · cases hb : baseline_check s (decide (job.skills ≠ ∅))
          job.location.user_index with
      | error e1 => simp only [hb] at h; exact absurd h (by simp)
      | ok s1 =>
          simp only [hb] at h
          rcases hres : resolve_location
            { s1 with has_TW := s1.has_TW ||
                !(job.tws.length = 1 && (job.tws.headD DEFAULT_TW).is_default) }
            job.location with ⟨s3, job2⟩
          rw [hres] at h
          injection h with h
          have hpair : s' = register_used s3 job2 ∧ job' = { job with location := job2 } := by
            constructor
            · exact congrArg Prod.fst h.symm
            · exact congrArg Prod.snd h.symm
          have hflags := resolve_location_flags
            { s1 with has_TW := s1.has_TW ||
                !(job.tws.length = 1 && (job.tws.headD DEFAULT_TW).is_default) }
            job.location
          rw [hres] at hflags
          have hs3 : s3.no_addition_yet = s1.no_addition_yet ∧
              s3.has_skills = s1.has_skills ∧
              s3.has_custom_location_index = s1.has_custom_location_index :=
            hflags
          have hs' : s'.no_addition_yet = s1.no_addition_yet ∧
              s'.has_skills = s1.has_skills ∧
              s'.has_custom_location_index = s1.has_custom_location_index := by
            rw [hpair.1]
            exact hs3
          constructor
          · intro hfresh
            have := baseline_check_ok_of_fresh hfresh hb
            rw [this] at hs'
            exact ⟨hs'.1, hs'.2.1, hs'.2.2⟩
          · intro hstarted
            obtain ⟨heq, hsk, hloc⟩ := baseline_check_ok_of_started hstarted hb
            rw [heq] at hs'
            exact ⟨hstarted ▸ hs'.1, hs'.2.1, hs'.2.2, hsk, hloc⟩

theorem add_job_err {s : Input} {job : Job} {e : Exc}
    (h : add_job s job = .error e) : e.error = ERROR.INPUT := by
  unfold add_job at h
  simp only [bind, Except.bind, pure, Except.pure, throw, throwThe,
    MonadExceptOf.throw] at h
  split at h
  · injection h with h; rw [← h]
  · split at h
    · injection h with h; rw [← h]
    · cases hc : check_job
          { s with job_id_to_rank := s.job_id_to_rank ++ [(job.id, s.jobs.length)] }
          job with
      | error e1 =>
          simp only [hc] at h
          injection h with h
          exact h ▸ check_job_err hc
      | ok p =>
          rcases p with ⟨s2, job2⟩
          simp only [hc] at h
          exact absurd h (by simp)

theorem add_job_flags {s : Input} {job : Job} {s' : Input}
    (h : add_job s job = .ok s') :
    (s.no_addition_yet = true →
       s'.no_addition_yet = false ∧
       s'.has_skills = decide (job.skills ≠ ∅) ∧
       s'.has_custom_location_index = job.location.user_index) ∧
    (s.no_addition_yet = false →
       s'.no_addition_yet = false ∧
       s'.has_skills = s.has_skills ∧
       s'.has_custom_location_index = s.has_custom_location_index ∧
       s.has_skills = decide (job.skills ≠ ∅) ∧
       s.has_custom_location_index = job.location.user_index) := by
  unfold add_job at h
  simp only [bind, Except.bind, pure, Except.pure, throw, throwThe,
    MonadExceptOf.throw] at h
  split at h
  · exact absurd h (by simp)
  · split at h
    · exact absurd h (by simp)
    · cases hc : check_job
          { s with job_id_to_rank := s.job_id_to_rank ++ [(job.id, s.jobs.length)] }
          job with
      | error e1 => simp only [hc] at h; exact absurd h (by simp)
      | ok p =>
          rcases p with ⟨s2, job2⟩
          simp only [hc] at h
          injection h with h
          have hflags := check_job_flags hc
          have hs' : s'.no_addition_yet = s2.no_addition_yet ∧
              s'.has_skills = s2.has_skills ∧
              s'.has_custom_location_index = s2.has_custom_location_index := by
            rw [← h]
            exact ⟨rfl, rfl, rfl⟩
          constructor
          · intro hfresh
            obtain ⟨h1, h2, h3⟩ := hflags.1 hfresh
            exact ⟨hs'.1.trans h1, hs'.2.1.trans h2, hs'.2.2.trans h3⟩
          · intro hstarted
            obtain ⟨h1, h2, h3, h4, h5⟩ := hflags.2 hstarted
            exact ⟨hs'.1.trans h1, hs'.2.1.trans h2, hs'.2.2.trans h3, h4, h5⟩

theorem add_shipment_err {s : Input} {p d : Job} {e : Exc}
    (h : add_shipment s p d = .error e) : e.error = ERROR.INPUT := by
  unfold add_shipment at h
  simp only [bind, Except.bind, pure, Except.pure, throw, throwThe,
    MonadExceptOf.throw] at h
  repeat' split at h
  all_goals first
    | (injection h with h; rw [← h]; done)
    | exact Except.noConfusion h
    | (injection h with h; exact h ▸ check_job_err (by assumption))

theorem add_shipment_flags {s : Input} {p d : Job} {s' : Input}
    (h : add_shipment s p d = .ok s') :
    (s.no_addition_yet = true →
       s'.no_addition_yet = false ∧
       s'.has_skills = decide (p.skills ≠ ∅) ∧
       s'.has_custom_location_index = p.location.user_index) ∧
    (s.no_addition_yet = false →
       s'.no_addition_yet = false ∧
       s'.has_skills = s.has_skills ∧
       s'.has_custom_location_index = s.has_custom_location_index ∧
       s.has_skills = decide (p.skills ≠ ∅) ∧
       s.has_custom_location_index = p.location.user_index) := by
  unfold add_shipment at h
  simp only [bind, Except.bind, pure, Except.pure, throw, throwThe,
    MonadExceptOf.throw] at h
  split at h
  · exact absurd h (by simp)
  split at h
  · exact absurd h (by simp)
  split at h
  · exact absurd h (by simp)
  split at h
  · exact absurd h (by simp)
  split at h
  · exact absurd h (by simp)
  split at h
  · exact absurd h (by simp)
  cases hc1 : check_job
      { s with pickup_id_to_rank := s.pickup_id_to_rank ++ [(p.id, s.jobs.length)] }
      p with
  | error e1 => simp only [hc1] at h; exact absurd h (by simp)
  | ok q =>
      rcases q with ⟨s1, p2⟩
      simp only [hc1] at h
      split at h
      · exact absurd h (by simp)
      split at h
      · exact absurd h (by simp)
      cases hc2 : check_job
          { s1 with jobs := s.jobs ++ [p2],
                    delivery_id_to_rank :=
                      s1.delivery_id_to_rank ++ [(d.id, (s.jobs ++ [p2]).length)] }
          d with
      | error e2 => simp only [hc2] at h; exact absurd h (by simp)
      | ok q2 =>
          rcases q2 with ⟨s2, d2⟩
          simp only [hc2] at h
          injection h with h
          have hs' : s'.no_addition_yet = s2.no_addition_yet ∧
              s'.has_skills = s2.has_skills ∧
              s'.has_custom_location_index = s2.has_custom_location_index := by
            rw [← h]
            exact ⟨rfl, rfl, rfl⟩
          have hf1 := check_job_flags hc1
          have hf2 := check_job_flags hc2
          constructor
          · intro hfresh
            obtain ⟨h1, h2, h3⟩ := hf1.1 hfresh
            obtain ⟨g1, g2, g3, _, _⟩ := hf2.2 h1
            exact ⟨hs'.1.trans g1,
              hs'.2.1.trans (g2.trans h2),
              hs'.2.2.trans (g3.trans h3)⟩
          · intro hstarted
            obtain ⟨h1, h2, h3, h4, h5⟩ := hf1.2 hstarted
            obtain ⟨g1, g2, g3, _, _⟩ := hf2.2 h1
            exact ⟨hs'.1.trans g1,
              hs'.2.1.trans (g2.trans h2),
              hs'.2.2.trans (g3.trans h3), h4, h5⟩

/-- The location-index mode a vehicle contributes to the baseline check:
the end location's flag when an end is present (it overwrites the start's
value in `add_vehicle`), else the start's, else `false`. -/
def vehicle_loc_index (v : Vehicle) : Bool :=
  match v.end_ with
  | some e => e.user_index
  | none =>
      match v.start with
      | some l => l.user_index
      | none => false

theorem add_vehicle_resolve_start_spec (s : Input) (v : Vehicle) :
    ((add_vehicle_resolve_start s v).1.no_addition_yet = s.no_addition_yet ∧
     (add_vehicle_resolve_start s v).1.has_skills = s.has_skills ∧
     (add_vehicle_resolve_start s v).1.has_custom_location_index =
       s.has_custom_location_index) ∧
    (add_vehicle_resolve_start s v).2.1.end_ = v.end_ ∧
    (add_vehicle_resolve_start s v).2.1.skills = v.skills ∧
    (add_vehicle_resolve_start s v).2.2 =
      (match v.start with | some l => l.user_index | none => false) := by
  cases hst : v.start with
  | none =>
      unfold add_vehicle_resolve_start
      rw [hst]
      exact ⟨⟨rfl, rfl, rfl⟩, rfl, rfl, rfl⟩
  | some l =>
      have hflags := resolve_location_flags s l
      unfold add_vehicle_resolve_start
      rw [hst]
      exact ⟨⟨hflags.1, hflags.2.1, hflags.2.2⟩, rfl, rfl, rfl⟩

theorem add_vehicle_resolve_end_err {s : Input} {v : Vehicle} {hli : Bool}
    {e : Exc} (h : add_vehicle_resolve_end s v hli = .error e) :
    e.error = ERROR.INPUT := by
  unfold add_vehicle_resolve_end at h
  repeat' split at h
  all_goals first
    | (injection h with h; rw [← h])
    | exact Except.noConfusion h

theorem add_vehicle_resolve_end_spec {s : Input} {v : Vehicle} {hli : Bool}
    {out : Input × Vehicle × Bool}
    (h : add_vehicle_resolve_end s v hli = .ok out) :
    (out.1.no_addition_yet = s.no_addition_yet ∧
     out.1.has_skills = s.has_skills ∧
     out.1.has_custom_location_index = s.has_custom_location_index) ∧
    out.2.1.skills = v.skills ∧
    out.2.2 = (match v.end_ with | some e => e.user_index | none => hli) := by
  cases hend : v.end_ with
  | none =>
      simp only [add_vehicle_resolve_end, hend] at h
      injection h with h
      rw [← h]
      exact ⟨⟨rfl, rfl, rfl⟩, rfl, rfl⟩
  | some el =>
      simp only [add_vehicle_resolve_end, hend] at h
      split at h
      · exact Except.noConfusion h
      · have hflags := resolve_location_flags s el
        injection h with h
        rw [← h]
        exact ⟨⟨hflags.1, hflags.2.1, hflags.2.2⟩, rfl, rfl⟩

theorem add_vehicle_err {s : Input} {v : Vehicle} {e : Exc}
    (h : add_vehicle s v = .error e) : e.error = ERROR.INPUT := by
  unfold add_vehicle at h
  simp only [bind, Except.bind, pure, Except.pure, throw, throwThe,
    MonadExceptOf.throw] at h
  split at h
  · injection h with h; rw [← h]
  · rcases hstart : add_vehicle_resolve_start
        { s with has_TW := s.has_TW || !v.tw.is_default } v with ⟨sa, va, ha⟩
    simp only [hstart] at h
    cases hend : add_vehicle_resolve_end sa va ha with
    | error e1 =>
        simp only [hend] at h
        injection h with h
        exact h ▸ add_vehicle_resolve_end_err hend
    | ok out =>
        rcases out with ⟨sb, vb, hb⟩
        simp only [hend] at h
        cases hbl : baseline_check sb (decide (vb.skills ≠ ∅)) hb with
        | error e2 =>
            simp only [hbl] at h
            injection h with h
            exact h ▸ baseline_check_err hbl
        | ok sc =>
            simp only [hbl] at h
            split at h <;> exact Except.noConfusion h

theorem add_vehicle_flags {s : Input} {v : Vehicle} {s' : Input}
    (h : add_vehicle s v = .ok s') :
    (s.no_addition_yet = true →
       s'.no_addition_yet = false ∧
       s'.has_skills = decide (v.skills ≠ ∅) ∧
       s'.has_custom_location_index = vehicle_loc_index v) ∧
    (s.no_addition_yet = false →
       s'.no_addition_yet = false ∧
       s'.has_skills = s.has_skills ∧
       s'.has_custom_location_index = s.has_custom_location_index ∧
       s.has_skills = decide (v.skills ≠ ∅) ∧
       s.has_custom_location_index = vehicle_loc_index v) := by
  unfold add_vehicle at h
  simp only [bind, Except.bind, pure, Except.pure, throw, throwThe,
    MonadExceptOf.throw] at h
  split at h
  · exact Except.noConfusion h
  · have hsspec := add_vehicle_resolve_start_spec
      { s with has_TW := s.has_TW || !v.tw.is_default } v
    rcases hstart : add_vehicle_resolve_start
        { s with has_TW := s.has_TW || !v.tw.is_default } v with ⟨sa, va, ha⟩
    simp only [hstart] at h hsspec
    cases hend : add_vehicle_resolve_end sa va ha with
    | error e1 => simp only [hend] at h; exact Except.noConfusion h
    | ok out =>
        rcases out with ⟨sb, vb, hb⟩
        have hespec := add_vehicle_resolve_end_spec hend
        simp only [hend] at h
        cases hbl : baseline_check sb (decide (vb.skills ≠ ∅)) hb with
        | error e2 => simp only [hbl] at h; exact Except.noConfusion h
        | ok sc =>
            simp only [hbl] at h
            have hskills : decide (vb.skills ≠ ∅) = decide (v.skills ≠ ∅) := by
              have h1 : vb.skills = va.skills := hespec.2.1
              have h2 : va.skills = v.skills := hsspec.2.2.1
              rw [h1, h2]
            have hloc : hb = vehicle_loc_index v := by
              have h1 : hb = (match va.end_ with
                | some e => e.user_index | none => ha) := hespec.2.2
              have h2 : va.end_ = v.end_ := hsspec.2.1
              have h3 : ha = (match v.start with
                | some l => l.user_index | none => false) := hsspec.2.2.2
              rw [h1, h2, h3]
              unfold vehicle_loc_index
              cases v.end_ <;> rfl
            have hsb : sb.no_addition_yet = s.no_addition_yet ∧
                sb.has_skills = s.has_skills ∧
                sb.has_custom_location_index = s.has_custom_location_index := by
              obtain ⟨⟨e1, e2, e3⟩, _, _⟩ := hespec
              obtain ⟨⟨f1, f2, f3⟩, _, _, _⟩ := hsspec
              exact ⟨e1.trans f1, e2.trans f2, e3.trans f3⟩
            have hs'c : s'.no_addition_yet = sc.no_addition_yet ∧
                s'.has_skills = sc.has_skills ∧
                s'.has_custom_location_index = sc.has_custom_location_index := by
              split at h <;>
                (injection h with h; rw [← h]; exact ⟨rfl, rfl, rfl⟩)
            rw [hskills, hloc] at hbl
            constructor
            · intro hfresh
              have := baseline_check_ok_of_fresh (hsb.1.trans hfresh) hbl
              rw [this] at hs'c
              exact ⟨hs'c.1, hs'c.2.1, hs'c.2.2⟩
            · intro hstarted
              obtain ⟨heq, hsk, hlc⟩ :=
                baseline_check_ok_of_started (hsb.1.trans hstarted) hbl
              rw [heq] at hs'c
              refine ⟨hs'c.1.trans (hsb.1.trans hstarted), ?_, ?_, ?_, ?_⟩
              · exact hs'c.2.1.trans hsb.2.1
              · exact hs'c.2.2.trans hsb.2.2
              · exact (hsb.2.1.symm.trans hsk)
              · exact (hsb.2.2.symm.trans hlc)

/-- The skill-presence mode an ingestion call contributes to the
baseline check (for a shipment, the pickup is checked first and
establishes the baseline). -/
def op_skills : AddOp → Bool
  | AddOp.job j => decide (j.skills ≠ ∅)
  | AddOp.shipment p _ => decide (p.skills ≠ ∅)
  | AddOp.vehicle v => decide (v.skills ≠ ∅)

/-- The location-index mode an ingestion call contributes to the
baseline check. -/
def op_loc_index : AddOp → Bool
  | AddOp.job j => j.location.user_index
  | AddOp.shipment p _ => p.location.user_index
  | AddOp.vehicle v => vehicle_loc_index v

theorem apply_op_err {s : Input} {op : AddOp} {e : Exc}
    (h : apply_op s op = .error e) : e.error = ERROR.INPUT := by
  cases op with
  | job j => exact add_job_err h
  | shipment p d => exact add_shipment_err h
  | vehicle v => exact add_vehicle_err h

/-- C7: the first successful addition establishes the instance's
skill-usage flag and location-index-mode flag; any later addition whose
skill presence or location-index mode disagrees with the established
baseline fails with an `INPUT` error; and any addition that succeeds
after the baseline is established leaves both flags unchanged. -/
theorem sticky_baseline_flags (s : Input) (op : AddOp) :
    (s.no_addition_yet = true → ∀ s', apply_op s op = .ok s' →
       s'.no_addition_yet = false ∧ s'.has_skills = op_skills op ∧
       s'.has_custom_location_index = op_loc_index op) ∧
    (s.no_addition_yet = false →
       (s.has_skills ≠ op_skills op ∨
        s.has_custom_location_index ≠ op_loc_index op) →
       errKind (apply_op s op) = some ERROR.INPUT) ∧
    (s.no_addition_yet = false → ∀ s', apply_op s op = .ok s' →
       s'.no_addition_yet = false ∧ s'.has_skills = s.has_skills ∧
       s'.has_custom_location_index = s.has_custom_location_index) := by
  refine ⟨?_, ?_, ?_⟩
  · intro hf s' h
    cases op with
    | job j => exact (add_job_flags h).1 hf
    | shipment p d => exact (add_shipment_flags h).1 hf
    | vehicle v => exact (add_vehicle_flags h).1 hf
  · intro hs hdis
    cases hr : apply_op s op with
    | error e => simp [errKind, apply_op_err hr]
    | ok s' =>
        exfalso
        have hagree : s.has_skills = op_skills op ∧
            s.has_custom_location_index = op_loc_index op := by
          cases op with
          | job j =>
              have := (add_job_flags hr).2 hs
              exact ⟨this.2.2.2.1, this.2.2.2.2⟩
          | shipment p d =>
              have := (add_shipment_flags hr).2 hs
              exact ⟨this.2.2.2.1, this.2.2.2.2⟩
          | vehicle v =>
              have := (add_vehicle_flags hr).2 hs
              exact ⟨this.2.2.2.1, this.2.2.2.2⟩
        rcases hdis with hd | hd
        · exact hd hagree.1
        · exact hd hagree.2
  · intro hs s' h
    cases op with
    | job j =>
        have := (add_job_flags h).2 hs
        exact ⟨this.1, this.2.1, this.2.2.1⟩
    | shipment p d =>
        have := (add_shipment_flags h).2 hs
        exact ⟨this.1, this.2.1, this.2.2.1⟩
    | vehicle v =>
        have := (add_vehicle_flags h).2 hs
        exact ⟨this.1, this.2.1, this.2.2.1⟩

def c7_job : Job :=
  { id := 1, type := JOB_TYPE.SINGLE,
    location := { user_index := false, index := 0, coords := some ⟨0, 0⟩ },
    delivery := [0], pickup := [0], skills := {5}, tws := [DEFAULT_TW],
    priority := 0 }

def c7_state : Input := { Input.init 1 with no_addition_yet := false }

/-- C7 witness: a baselined instance without skills rejects a job that
carries skills, with an `INPUT` error. -/
theorem sticky_baseline_flags_witness :
    c7_state.no_addition_yet = false ∧
    (c7_state.has_skills ≠ op_skills (AddOp.job c7_job) ∨
     c7_state.has_custom_location_index ≠ op_loc_index (AddOp.job c7_job)) ∧
    errKind (apply_op c7_state (AddOp.job c7_job)) = some ERROR.INPUT :=
  ⟨rfl, Or.inl (by decide),
    (sticky_baseline_flags c7_state (AddOp.job c7_job)).2.1 rfl
      (Or.inl (by decide))⟩

/-! ### C8: shipment adjacency -/

theorem alookup_append_some {α β : Type} [DecidableEq α]
    {l1 l2 : List (α × β)} {k : α} {v : β} (h : alookup l1 k = some v) :
    alookup (l1 ++ l2) k = some v := by
  unfold alookup at h ⊢
  rw [List.find?_append]
  cases hf : l1.find? (fun p => p.1 = k) with
  | none => rw [hf] at h; simp at h
  | some pr =>
      rw [hf] at h
      simpa using h

theorem alookup_append_none {α β : Type} [DecidableEq α]
    {l1 : List (α × β)} (l2 : List (α × β)) {k : α}
    (h : alookup l1 k = none) :
    alookup (l1 ++ l2) k = alookup l2 k := by
  unfold alookup at h ⊢
  rw [List.find?_append]
  cases hf : l1.find? (fun p => p.1 = k) with
  | none => simp
  | some pr => rw [hf] at h; simp at h

theorem alookup_singleton_self {α β : Type} [DecidableEq α] (k : α) (v : β) :
    alookup [(k, v)] k = some v := by
  simp [alookup, List.find?]

theorem baseline_check_ok_cases {s : Input} {sk loc : Bool} {s' : Input}
    (h : baseline_check s sk loc = .ok s') :
    s' = s ∨ s' = { s with has_skills := sk, no_addition_yet := false,
                           has_custom_location_index := loc } := by
  unfold baseline_check at h
  repeat' split at h
  all_goals first
    | exact Except.noConfusion h
    | (injection h with h;
       first
         | exact Or.inl h.symm
         | exact Or.inr h.symm)

/-- Fields of the state untouched by `resolve_location`. -/
theorem resolve_location_shape (s : Input) (loc : Location) :
    (resolve_location s loc).1.jobs = s.jobs ∧
    (resolve_location s loc).1.vehicles = s.vehicles ∧
    (resolve_location s loc).1.job_id_to_rank = s.job_id_to_rank ∧
    (resolve_location s loc).1.pickup_id_to_rank = s.pickup_id_to_rank ∧
    (resolve_location s loc).1.delivery_id_to_rank = s.delivery_id_to_rank ∧
    (resolve_location s loc).1.amount_size = s.amount_size := by
  unfold resolve_location
  repeat' split
  all_goals exact ⟨rfl, rfl, rfl, rfl, rfl, rfl⟩

/-- The location of a resolved location keeps its user-index mode and its
coordinates (`set_index` only writes the index). -/
theorem resolve_location_loc (s : Input) (loc : Location) :
    (resolve_location s loc).2.user_index = loc.user_index ∧
    (resolve_location s loc).2.coords = loc.coords := by
  unfold resolve_location
  repeat' split
  all_goals exact ⟨rfl, rfl⟩

theorem check_job_decomp {s : Input} {job : Job} {s' : Input} {job' : Job}
    (h : check_job s job = .ok (s', job')) :
    ∃ s1, baseline_check s (decide (job.skills ≠ ∅)) job.location.user_index
        = .ok s1 ∧
      s' = register_used
        (resolve_location
          { s1 with has_TW := s1.has_TW ||
              !(job.tws.length = 1 && (job.tws.headD DEFAULT_TW).is_default) }
          job.location).1
        (resolve_location
          { s1 with has_TW := s1.has_TW ||
              !(job.tws.length = 1 && (job.tws.headD DEFAULT_TW).is_default) }
          job.location).2 ∧
      job' = { job with location :=
        (resolve_location
          { s1 with has_TW := s1.has_TW ||
              !(job.tws.length = 1 && (job.tws.headD DEFAULT_TW).is_default) }
          job.location).2 } := by
  unfold check_job at h
  simp only [bind, Except.bind, pure, Except.pure, throw, throwThe,
    MonadExceptOf.throw] at h
  split at h
  · exact Except.noConfusion h
  · split at h
    · exact Except.noConfusion h
    · cases hb : baseline_check s (decide (job.skills ≠ ∅))
          job.location.user_index with
      | error e1 => simp only [hb] at h; exact Except.noConfusion h
      | ok s1 =>
          simp only [hb] at h
          injection h with h
          exact ⟨s1, rfl, (congrArg Prod.fst h).symm,
            (congrArg Prod.snd h).symm⟩

/-- Fields of the state and job untouched by a successful `check_job`. -/
theorem check_job_shape {s : Input} {job : Job} {s' : Input} {job' : Job}
    (h : check_job s job = .ok (s', job')) :
    s'.jobs = s.jobs ∧ s'.vehicles = s.vehicles ∧
    s'.job_id_to_rank = s.job_id_to_rank ∧
    s'.pickup_id_to_rank = s.pickup_id_to_rank ∧
    s'.delivery_id_to_rank = s.delivery_id_to_rank ∧
    s'.amount_size = s.amount_size ∧
    job'.id = job.id ∧ job'.type = job.type ∧ job'.skills = job.skills ∧
    job'.pickup = job.pickup ∧ job'.delivery = job.delivery ∧
    job'.priority = job.priority ∧
    job'.location.user_index = job.location.user_index ∧
    job'.location.coords = job.location.coords := by
  obtain ⟨s1, hb, hs', hjob'⟩ := check_job_decomp h
  have hshape := resolve_location_shape
    { s1 with has_TW := s1.has_TW ||
        !(job.tws.length = 1 && (job.tws.headD DEFAULT_TW).is_default) }
    job.location
  have hloc := resolve_location_loc
    { s1 with has_TW := s1.has_TW ||
        !(job.tws.length = 1 && (job.tws.headD DEFAULT_TW).is_default) }
    job.location
  have hbase := baseline_check_ok_cases hb
  subst hs' hjob'
  rcases hbase with hbase | hbase <;> subst hbase <;>
    exact ⟨hshape.1, hshape.2.1, hshape.2.2.1, hshape.2.2.2.1,
      hshape.2.2.2.2.1, hshape.2.2.2.2.2, rfl, rfl, rfl, rfl, rfl, rfl,
      hloc.1, hloc.2⟩

theorem add_job_shape {s : Input} {job : Job} {s' : Input}
    (h : add_job s job = .ok s') :
    ∃ job', s'.jobs = s.jobs ++ [job'] ∧ job'.type = JOB_TYPE.SINGLE ∧
      job'.id = job.id ∧ job'.skills = job.skills := by
  unfold add_job at h
  simp only [bind, Except.bind, pure, Except.pure, throw, throwThe,
    MonadExceptOf.throw] at h
  split at h
  · exact Except.noConfusion h
  · split at h
    · exact Except.noConfusion h
    · cases hc : check_job
          { s with job_id_to_rank := s.job_id_to_rank ++ [(job.id, s.jobs.length)] }
          job with
      | error e1 => simp only [hc] at h; exact Except.noConfusion h
      | ok q =>
          rcases q with ⟨s2, job2⟩
          simp only [hc] at h
          injection h with h
          have hshape := check_job_shape hc
          refine ⟨job2, ?_, ?_, hshape.2.2.2.2.2.2.1, hshape.2.2.2.2.2.2.2.2.1⟩
          · rw [← h]
          · rw [hshape.2.2.2.2.2.2.2.1]
            rename_i htype _
            exact Decidable.of_not_not htype

theorem add_vehicle_resolve_end_jobs {s : Input} {v : Vehicle} {hli : Bool}
    {out : Input × Vehicle × Bool}
    (h : add_vehicle_resolve_end s v hli = .ok out) : out.1.jobs = s.jobs := by
  cases he : v.end_ with
  | none =>
      simp only [add_vehicle_resolve_end, he] at h
      injection h with h
      rw [← h]
  | some el =>
      simp only [add_vehicle_resolve_end, he] at h
      split at h
      · exact Except.noConfusion h
      · injection h with h
        rw [← h]
        exact (resolve_location_shape s el).1

theorem add_vehicle_jobs {s : Input} {v : Vehicle} {s' : Input}
    (h : add_vehicle s v = .ok s') : s'.jobs = s.jobs := by
  unfold add_vehicle at h
  simp only [bind, Except.bind, pure, Except.pure, throw, throwThe,
    MonadExceptOf.throw] at h
  split at h
  · exact Except.noConfusion h
  · rcases hstart : add_vehicle_resolve_start
        { s with has_TW := s.has_TW || !v.tw.is_default } v with ⟨sa, va, ha⟩
    have hsa : sa.jobs = s.jobs := by
      have : (add_vehicle_resolve_start
          { s with has_TW := s.has_TW || !v.tw.is_default } v).1.jobs = s.jobs := by
        unfold add_vehicle_resolve_start
        cases hst : v.start with
        | none => rfl
        | some l =>
            have := resolve_location_shape
              { s with has_TW := s.has_TW || !v.tw.is_default } l
            exact this.1
      rw [hstart] at this
      exact this
    simp only [hstart] at h
    cases hend : add_vehicle_resolve_end sa va ha with
    | error e1 => simp only [hend] at h; exact Except.noConfusion h
    | ok out =>
        rcases out with ⟨sb, vb, hb⟩
        have hsb : sb.jobs = sa.jobs := add_vehicle_resolve_end_jobs hend
        simp only [hend] at h
        cases hbl : baseline_check sb (decide (vb.skills ≠ ∅)) hb with
        | error e2 => simp only [hbl] at h; exact Except.noConfusion h
        | ok sc =>
            have hsc : sc.jobs = sb.jobs := by
              rcases baseline_check_ok_cases hbl with hc | hc <;> rw [hc]
            simp only [hbl] at h
            split at h <;>
              (injection h with h; rw [← h]; rw [hsc, hsb, hsa])

theorem add_shipment_shape {s : Input} {p d : Job} {s' : Input}
    (h : add_shipment s p d = .ok s') :
    ∃ p' d', s'.jobs = s.jobs ++ [p', d'] ∧
      p'.type = JOB_TYPE.PICKUP ∧ d'.type = JOB_TYPE.DELIVERY ∧
      p'.id = p.id ∧ d'.id = d.id ∧ p'.skills = d'.skills ∧
      alookup s'.pickup_id_to_rank p.id = some s.jobs.length ∧
      alookup s'.delivery_id_to_rank d.id = some (s.jobs.length + 1) := by
  unfold add_shipment at h
  simp only [bind, Except.bind, pure, Except.pure, throw, throwThe,
    MonadExceptOf.throw] at h
  split at h
  · exact Except.noConfusion h
  split at h
  · exact Except.noConfusion h
  split at h
  · exact Except.noConfusion h
  split at h
  · exact Except.noConfusion h
  split at h
  · exact Except.noConfusion h
  split at h
  · exact Except.noConfusion h
  rename_i hpri hamount hcard hsub htype hdup
  cases hc1 : check_job
      { s with pickup_id_to_rank := s.pickup_id_to_rank ++ [(p.id, s.jobs.length)] }
      p with
  | error e1 => simp only [hc1] at h; exact Except.noConfusion h
  | ok q =>
      rcases q with ⟨s1, p2⟩
      simp only [hc1] at h
      split at h
      · exact Except.noConfusion h
      split at h
      · exact Except.noConfusion h
      rename_i hdtype hddup
      cases hc2 : check_job
          { s1 with jobs := s.jobs ++ [p2],
                    delivery_id_to_rank :=
                      s1.delivery_id_to_rank ++ [(d.id, (s.jobs ++ [p2]).length)] }
          d with
      | error e2 => simp only [hc2] at h; exact Except.noConfusion h
      | ok q2 =>
          rcases q2 with ⟨s2, d2⟩
          simp only [hc2] at h
          injection h with h
          have hsh1 := check_job_shape hc1
          have hsh2 := check_job_shape hc2
          have hskills : p2.skills = d2.skills := by
            rw [hsh1.2.2.2.2.2.2.2.2.1, hsh2.2.2.2.2.2.2.2.2.1]
            exact Finset.eq_of_subset_of_card_le
              (Decidable.of_not_not hsub)
              (le_of_eq (Decidable.of_not_not hcard).symm)
          have hjobs : s'.jobs = s.jobs ++ [p2, d2] := by
            rw [← h]
            show (s.jobs ++ [p2]) ++ [d2] = s.jobs ++ [p2, d2]
            rw [List.append_assoc]
            rfl
          refine ⟨p2, d2, hjobs, ?_, ?_, hsh1.2.2.2.2.2.2.1,
            hsh2.2.2.2.2.2.2.1, hskills, ?_, ?_⟩
          · rw [hsh1.2.2.2.2.2.2.2.1]
            exact Decidable.of_not_not htype
          · rw [hsh2.2.2.2.2.2.2.2.1]
            exact Decidable.of_not_not hdtype
          · -- pickup rank: registered before the first check_job
            have hmap : s'.pickup_id_to_rank =
                s.pickup_id_to_rank ++ [(p.id, s.jobs.length)] := by
              rw [← h]
              show s2.pickup_id_to_rank = _
              rw [hsh2.2.2.2.1]
              show s1.pickup_id_to_rank = _
              exact hsh1.2.2.2.1
            rw [hmap]
            rw [alookup_append_none _ (Option.not_isSome_iff_eq_none.mp hdup)]
            exact alookup_singleton_self p.id s.jobs.length
          · -- delivery rank: registered before the second check_job
            have hmap : s'.delivery_id_to_rank =
                s1.delivery_id_to_rank ++ [(d.id, (s.jobs ++ [p2]).length)] := by
              rw [← h]
              show s2.delivery_id_to_rank = _
              exact hsh2.2.2.2.2.1
            have hlen : (s.jobs ++ [p2]).length = s.jobs.length + 1 := by
              simp
            rw [hmap, hlen]
            rw [alookup_append_none _ (Option.not_isSome_iff_eq_none.mp hddup)]
            exact alookup_singleton_self d.id (s.jobs.length + 1)

theorem shipmentCoherent_nil : shipmentCoherent [] := by
  intro i hi
  simp at hi

theorem shipmentCoherent_append_single {jobs : List Job} {j : Job}
    (hc : shipmentCoherent jobs) (hj : j.type ≠ JOB_TYPE.PICKUP) :
    shipmentCoherent (jobs ++ [j]) := by
  intro i hi hpick
  rcases Nat.lt_or_ge i jobs.length with hlt | hge
  · rw [List.getD_append _ _ _ _ hlt] at hpick
    obtain ⟨h1, h2, h3⟩ := hc i hlt hpick
    refine ⟨by simp; omega, ?_, ?_⟩
    · rw [List.getD_append _ _ _ _ h1]
      exact h2
    · rw [List.getD_append _ _ _ _ hlt, List.getD_append _ _ _ _ h1]
      exact h3
  · have hieq : i = jobs.length := by
      simp at hi
      omega
    rw [List.getD_append_right _ _ _ _ hge, hieq] at hpick
    simp at hpick
    exact absurd hpick hj

theorem shipmentCoherent_append_pair {jobs : List Job} {p d : Job}
    (hc : shipmentCoherent jobs) (hd : d.type = JOB_TYPE.DELIVERY)
    (hsk : p.skills = d.skills) :
    shipmentCoherent (jobs ++ [p, d]) := by
  intro i hi hpick
  rcases Nat.lt_or_ge i jobs.length with hlt | hge
  · rw [List.getD_append _ _ _ _ hlt] at hpick
    obtain ⟨h1, h2, h3⟩ := hc i hlt hpick
    refine ⟨by simp; omega, ?_, ?_⟩
    · rw [List.getD_append _ _ _ _ h1]
      exact h2
    · rw [List.getD_append _ _ _ _ hlt, List.getD_append _ _ _ _ h1]
      exact h3
  · have hlen : (jobs ++ [p, d]).length = jobs.length + 2 := by simp
    rcases Nat.eq_or_lt_of_le hge with hieq | hgt
    · -- i is the pickup position
      have hgd : (jobs ++ [p, d]).getD (i + 1) default = d := by
        rw [List.getD_append_right _ _ _ _ (by omega)]
        rw [← hieq]
        simp
      refine ⟨by omega, ?_, ?_⟩
      · rw [hgd]
        exact hd
      · have hgp : (jobs ++ [p, d]).getD i default = p := by
          rw [List.getD_append_right _ _ _ _ hge, ← hieq]
          simp
        rw [hgp, hgd]
        exact hsk
    · -- i is the delivery position: not a pickup
      have hieq : i = jobs.length + 1 := by omega
      have hgd : (jobs ++ [p, d]).getD i default = d := by
        rw [List.getD_append_right _ _ _ _ hge, hieq]
        simp
      rw [hgd, hd] at hpick
      exact absurd hpick (by simp)

theorem apply_ops_coherent {s' : Input} :
    ∀ (ops : List AddOp) (s : Input), shipmentCoherent s.jobs →
      apply_ops s ops = .ok s' → shipmentCoherent s'.jobs := by
  intro ops
  induction ops with
  | nil =>
      intro s hc h
      simp only [apply_ops] at h
      injection h with h
      rw [← h]
      exact hc
  | cons op rest ih =>
      intro s hc h
      rw [apply_ops] at h
      simp only [bind, Except.bind] at h
      cases hop : apply_op s op with
      | error e => simp only [hop] at h; exact Except.noConfusion h
      | ok s1 =>
          simp only [hop] at h
          refine ih s1 ?_ h
          cases op with
          | job j =>
              obtain ⟨j', hjobs, htype, _, _⟩ := add_job_shape hop
              rw [hjobs]
              exact shipmentCoherent_append_single hc (by rw [htype]; simp)
          | shipment p d =>
              obtain ⟨p', d', hjobs, _, hdt, _, _, hsk, _, _⟩ :=
                add_shipment_shape hop
              rw [hjobs]
              exact shipmentCoherent_append_pair hc hdt hsk
          | vehicle v =>
              rw [add_vehicle_jobs hop]
              exact hc

/-- C8: a successful `add_shipment` appends the pickup immediately before
its delivery (the delivery's stored rank is the pickup's rank plus one),
after the priority, amount, skill, type and duplicate-id validations
passed; and in an instance built only from successful calls, every pickup
in the job list is immediately followed by its delivery. -/
theorem shipment_adjacency (s : Input) (p d : Job) (s' : Input)
    (a : Nat) (ops : List AddOp) (t' : Input) :
    (add_shipment s p d = .ok s' →
      ∃ p' d', s'.jobs = s.jobs ++ [p', d'] ∧
        p'.type = JOB_TYPE.PICKUP ∧ d'.type = JOB_TYPE.DELIVERY ∧
        p'.id = p.id ∧ d'.id = d.id ∧
        alookup s'.pickup_id_to_rank p.id = some s.jobs.length ∧
        alookup s'.delivery_id_to_rank d.id = some (s.jobs.length + 1)) ∧
    (apply_ops (Input.init a) ops = .ok t' → shipmentCoherent t'.jobs) := by
  constructor
  · intro h
    obtain ⟨p', d', hjobs, hpt, hdt, hpid, hdid, _, hpr, hdr⟩ :=
      add_shipment_shape h
    exact ⟨p', d', hjobs, hpt, hdt, hpid, hdid, hpr, hdr⟩
  · intro h
    exact apply_ops_coherent ops (Input.init a) shipmentCoherent_nil h

def c8_p : Job :=
  { id := 1, type := JOB_TYPE.PICKUP,
    location := { user_index := false, index := 0, coords := some ⟨0, 0⟩ },
    delivery := [0], pickup := [2], skills := ∅, tws := [DEFAULT_TW],
    priority := 0 }

def c8_d : Job :=
  { id := 1, type := JOB_TYPE.DELIVERY,
    location := { user_index := false, index := 0, coords := some ⟨1, 1⟩ },
    delivery := [2], pickup := [0], skills := ∅, tws := [DEFAULT_TW],
    priority := 0 }

def c8_s' : Input :=
  match add_shipment (Input.init 1) c8_p c8_d with
  | .ok t => t
  | .error _ => Input.init 0

/-- C8 witness: the theorem applied to a concrete successful shipment. -/
theorem shipment_adjacency_witness :
    (∃ p' d', c8_s'.jobs = (Input.init 1).jobs ++ [p', d'] ∧
      p'.type = JOB_TYPE.PICKUP ∧ d'.type = JOB_TYPE.DELIVERY ∧
      p'.id = c8_p.id ∧ d'.id = c8_d.id ∧
      alookup c8_s'.pickup_id_to_rank c8_p.id =
        some (Input.init 1).jobs.length ∧
      alookup c8_s'.delivery_id_to_rank c8_d.id =
        some ((Input.init 1).jobs.length + 1)) ∧
    shipmentCoherent c8_s'.jobs :=
  ⟨(shipment_adjacency (Input.init 1) c8_p c8_d c8_s' 1
      [AddOp.shipment c8_p c8_d] c8_s').1 rfl,
   (shipment_adjacency (Input.init 1) c8_p c8_d c8_s' 1
      [AddOp.shipment c8_p c8_d] c8_s').2 rfl⟩

/-! ### C9: location registry deduplication -/

theorem locKey_set_index {loc : Location} (hu : loc.user_index = false)
    (n : Nat) : locKey (loc.set_index n) = locKey loc := by
  unfold locKey Location.set_index
  rw [hu]
  rfl

/-- After resolving an auto-indexed location, the registry maps its key to
the assigned index. -/
theorem resolve_location_lookup_auto (s : Input) (loc : Location)
    (hu : loc.user_index = false) :
    alookup (resolve_location s loc).1.locations_to_index (locKey loc) =
      some (resolve_location s loc).2.index := by
  unfold resolve_location
  rw [hu]
  simp only [Bool.not_false, if_pos]
  cases hl : alookup s.locations_to_index (locKey loc) with
  | some i =>
      simp only [hl]
      rfl
  | none =>
      simp only [hl]
      rw [locKey_set_index hu, alookup_append_none _ hl]
      exact alookup_singleton_self _ _

/-- Resolving an auto-indexed location does not change its registry key. -/
theorem locKey_resolve (s : Input) (loc : Location)
    (hu : loc.user_index = false) :
    locKey (resolve_location s loc).2 = locKey loc := by
  have hRL := resolve_location_loc s loc
  unfold locKey
  rw [hRL.1, hRL.2, hu]
  simp

/-- Resolving a location never invalidates an existing registry entry. -/
theorem resolve_location_preserves_lookup (s : Input) (loc : Location)
    {k : Sum Nat (Option Coordinates)} {v : Nat}
    (h : alookup s.locations_to_index k = some v) :
    alookup (resolve_location s loc).1.locations_to_index k = some v := by
  unfold resolve_location
  repeat' split
  all_goals first
    | exact h
    | exact alookup_append_some h

/-- The per-job registry invariant maintained by `add_job` in
auto-location mode: every stored job's location is auto-indexed and its
key maps to its index. -/
def regInv (s : Input) : Prop :=
  ∀ j ∈ s.jobs, j.location.user_index = false ∧
    alookup s.locations_to_index (locKey j.location) = some j.location.index

theorem baseline_check_registry {s : Input} {sk loc : Bool} {s' : Input}
    (h : baseline_check s sk loc = .ok s') :
    s'.locations_to_index = s.locations_to_index ∧
      s'.locations = s.locations ∧ s'.jobs = s.jobs := by
  rcases baseline_check_ok_cases h with hc | hc <;> rw [hc] <;>
    exact ⟨rfl, rfl, rfl⟩

theorem add_job_regInv {s : Input} {job : Job} {s' : Input}
    (hinv : regInv s) (hu : job.location.user_index = false)
    (h : add_job s job = .ok s') : regInv s' := by
  unfold add_job at h
  simp only [bind, Except.bind, pure, Except.pure, throw, throwThe,
    MonadExceptOf.throw] at h
  split at h
  · exact Except.noConfusion h
  · split at h
    · exact Except.noConfusion h
    · cases hc : check_job
          { s with job_id_to_rank := s.job_id_to_rank ++ [(job.id, s.jobs.length)] }
          job with
      | error e1 => simp only [hc] at h; exact Except.noConfusion h
      | ok q =>
          rcases q with ⟨s2, job2⟩
          simp only [hc] at h
          injection h with h
          obtain ⟨s1, hb, hs2, hjob2⟩ := check_job_decomp hc
          obtain ⟨hbl1, hbl2, _⟩ := baseline_check_registry hb
          intro j hj
          have hjobs : s'.jobs = s.jobs ++ [job2] := by rw [← h]
          have hmap : s'.locations_to_index = s2.locations_to_index := by
            rw [← h]
          rw [hjobs] at hj
          have hRL := resolve_location_loc
            { s1 with has_TW := s1.has_TW ||
                !(job.tws.length = 1 && (job.tws.headD DEFAULT_TW).is_default) }
            job.location
          have hmap1 : ({ s1 with has_TW := s1.has_TW ||
              !(job.tws.length = 1 && (job.tws.headD DEFAULT_TW).is_default) }
                : Input).locations_to_index = s.locations_to_index := hbl1
          rcases List.mem_append.mp hj with hmem | hmem
          · obtain ⟨hu', hlk⟩ := hinv j hmem
            refine ⟨hu', ?_⟩
            rw [hmap, hs2]
            exact resolve_location_preserves_lookup _ _
              (by rw [hmap1]; exact hlk)
          · rw [List.mem_singleton] at hmem
            have hkey : locKey (resolve_location
                { s1 with has_TW := s1.has_TW ||
                    !(job.tws.length = 1 && (job.tws.headD DEFAULT_TW).is_default) }
                job.location).2 = locKey job.location :=
              locKey_resolve _ job.location hu
            have hgoal := resolve_location_lookup_auto
              { s1 with has_TW := s1.has_TW ||
                  !(job.tws.length = 1 && (job.tws.headD DEFAULT_TW).is_default) }
              job.location hu
            have hgoal2 : alookup (resolve_location
                { s1 with has_TW := s1.has_TW ||
                    !(job.tws.length = 1 && (job.tws.headD DEFAULT_TW).is_default) }
                job.location).1.locations_to_index
                (locKey (resolve_location
                  { s1 with has_TW := s1.has_TW ||
                      !(job.tws.length = 1 && (job.tws.headD DEFAULT_TW).is_default) }
                  job.location).2) =
                some (resolve_location
                  { s1 with has_TW := s1.has_TW ||
                      !(job.tws.length = 1 && (job.tws.headD DEFAULT_TW).is_default) }
                  job.location).2.index := by
              rw [hkey]
              exact hgoal
            refine ⟨?_, ?_⟩
            · rw [hmem, hjob2]
              exact hRL.1.trans hu
            · rw [hmem, hjob2, hmap, hs2]
              exact hgoal2

theorem apply_jobs_regInv {s' : Input} :
    ∀ (js : List Job) (s : Input), regInv s →
      (∀ j ∈ js, j.location.user_index = false) →
      apply_ops s (js.map AddOp.job) = .ok s' → regInv s' := by
  intro js
  induction js with
  | nil =>
      intro s hinv _ h
      simp only [List.map_nil, apply_ops] at h
      injection h with h
      rw [← h]
      exact hinv
  | cons j rest ih =>
      intro s hinv hall h
      simp only [List.map_cons, apply_ops, bind, Except.bind] at h
      cases hop : apply_op s (AddOp.job j) with
      | error e => simp only [hop] at h; exact Except.noConfusion h
      | ok s1 =>
          simp only [hop] at h
          have hj : j.location.user_index = false :=
            hall j (List.mem_cons_self j rest)
          have hrest : ∀ x ∈ rest, x.location.user_index = false :=
            fun x hx => hall x (List.mem_cons_of_mem j hx)
          exact ih s1 (add_job_regInv hinv hj hop) hrest h

theorem resolve_location_miss (s : Input) (loc : Location)
    (hu : loc.user_index = false)
    (hmiss : alookup s.locations_to_index (locKey loc) = none) :
    resolve_location s loc =
      ({ s with locations := s.locations ++ [loc.set_index s.locations.length],
                locations_to_index := s.locations_to_index ++
                  [(locKey (loc.set_index s.locations.length),
                    s.locations.length)] },
       loc.set_index s.locations.length) := by
  unfold resolve_location
  rw [hu]
  simp only [Bool.not_false, if_pos, hmiss]

theorem add_job_fresh_location {s0 : Input} {job : Job} {t' : Input}
    (hu : job.location.user_index = false)
    (hmiss : alookup s0.locations_to_index (locKey job.location) = none)
    (h : add_job s0 job = .ok t') :
    t'.locations = s0.locations ++
      [job.location.set_index s0.locations.length] ∧
    alookup t'.locations_to_index (locKey job.location) =
      some s0.locations.length ∧
    ∃ job', t'.jobs = s0.jobs ++ [job'] ∧
      job'.location.index = s0.locations.length := by
  unfold add_job at h
  simp only [bind, Except.bind, pure, Except.pure, throw, throwThe,
    MonadExceptOf.throw] at h
  split at h
  · exact Except.noConfusion h
  · split at h
    · exact Except.noConfusion h
    · cases hc : check_job
          { s0 with job_id_to_rank := s0.job_id_to_rank ++ [(job.id, s0.jobs.length)] }
          job with
      | error e1 => simp only [hc] at h; exact Except.noConfusion h
      | ok q =>
          rcases q with ⟨s2, job2⟩
          simp only [hc] at h
          injection h with h
          obtain ⟨s1, hb, hs2, hjob2⟩ := check_job_decomp hc
          obtain ⟨hbl1, hbl2, _⟩ := baseline_check_registry hb
          have hmap1 : ({ s1 with has_TW := s1.has_TW ||
              !(job.tws.length = 1 && (job.tws.headD DEFAULT_TW).is_default) }
                : Input).locations_to_index = s0.locations_to_index := hbl1
          have hloc1 : ({ s1 with has_TW := s1.has_TW ||
              !(job.tws.length = 1 && (job.tws.headD DEFAULT_TW).is_default) }
                : Input).locations = s0.locations := hbl2
          have hmiss2 : alookup ({ s1 with has_TW := s1.has_TW ||
              !(job.tws.length = 1 && (job.tws.headD DEFAULT_TW).is_default) }
                : Input).locations_to_index (locKey job.location) = none := by
            rw [hmap1]
            exact hmiss
          have hrm := resolve_location_miss _ job.location hu hmiss2
          refine ⟨?_, ?_, job2, ?_, ?_⟩
          · rw [← h, hs2, hrm]
            show ({ s1 with has_TW := _ } : Input).locations ++ _ = _
            rw [hloc1]
          · rw [← h, hs2, hrm]
            show alookup (({ s1 with has_TW := _ } : Input).locations_to_index
              ++ _) _ = _
            rw [locKey_set_index hu, hmap1, hloc1]
            rw [alookup_append_none _ hmiss]
            exact alookup_singleton_self _ _
          · rw [← h]
          · rw [hjob2, hrm]
            show (job.location.set_index
              ({ s1 with has_TW := _ } : Input).locations.length).index = _
            rw [hloc1]
            rfl

/-- C9: in auto-location-index mode, jobs at identical coordinates resolve
to the same matrix index; a location not seen before receives the next
sequential index (the registry size) and is appended exactly once to the
registry. -/
theorem location_registry_dedup (a : Nat) (js : List Job) (s' : Input)
    (s0 : Input) (job : Job) (t' : Input) :
    ((∀ j ∈ js, j.location.user_index = false) →
      apply_ops (Input.init a) (js.map AddOp.job) = .ok s' →
      ∀ j1 ∈ s'.jobs, ∀ j2 ∈ s'.jobs,
        j1.location.coords = j2.location.coords →
        j1.location.index = j2.location.index) ∧
    (job.location.user_index = false →
      alookup s0.locations_to_index (locKey job.location) = none →
      add_job s0 job = .ok t' →
      t'.locations = s0.locations ++
        [job.location.set_index s0.locations.length] ∧
      alookup t'.locations_to_index (locKey job.location) =
        some s0.locations.length ∧
      ∃ job', t'.jobs = s0.jobs ++ [job'] ∧
        job'.location.index = s0.locations.length) := by
  constructor
  · intro hall h j1 hj1 j2 hj2 hcoords
    have hinv0 : regInv (Input.init a) := by
      intro j hj
      simp [Input.init] at hj
    have hinv := apply_jobs_regInv js (Input.init a) hinv0 hall h
    obtain ⟨hu1, hl1⟩ := hinv j1 hj1
    obtain ⟨hu2, hl2⟩ := hinv j2 hj2
    have hkeys : locKey j1.location = locKey j2.location := by
      unfold locKey
      rw [hu1, hu2, hcoords]
      simp
    rw [hkeys, hl2] at hl1
    injection hl1 with hli
    exact hli.symm
  · intro hu hmiss h
    exact add_job_fresh_location hu hmiss h

def c9_jobA : Job :=
  { id := 1, type := JOB_TYPE.SINGLE,
    location := { user_index := false, index := 0, coords := some ⟨3, 4⟩ },
    delivery := [0], pickup := [0], skills := ∅, tws := [DEFAULT_TW],
    priority := 0 }

def c9_jobB : Job :=
  { id := 2, type := JOB_TYPE.SINGLE,
    location := { user_index := false, index := 0, coords := some ⟨3, 4⟩ },
    delivery := [0], pickup := [0], skills := ∅, tws := [DEFAULT_TW],
    priority := 0 }

def c9_s' : Input :=
  match apply_ops (Input.init 1) ([c9_jobA, c9_jobB].map AddOp.job) with
  | .ok t => t
  | .error _ => Input.init 0

def c9_t' : Input :=
  match add_job (Input.init 1) c9_jobA with
  | .ok t => t
  | .error _ => Input.init 0

/-- C9 witness: both parts of the theorem applied to two jobs at the same
coordinates added to a fresh instance. -/
theorem location_registry_dedup_witness :
    (∀ j1 ∈ c9_s'.jobs, ∀ j2 ∈ c9_s'.jobs,
      j1.location.coords = j2.location.coords →
      j1.location.index = j2.location.index) ∧
    (c9_t'.locations = (Input.init 1).locations ++
        [c9_jobA.location.set_index (Input.init 1).locations.length] ∧
      alookup c9_t'.locations_to_index (locKey c9_jobA.location) =
        some (Input.init 1).locations.length ∧
      ∃ job', c9_t'.jobs = (Input.init 1).jobs ++ [job'] ∧
        job'.location.index = (Input.init 1).locations.length) :=
  ⟨(location_registry_dedup 1 [c9_jobA, c9_jobB] c9_s' (Input.init 1)
      c9_jobA c9_t').1 (by decide) rfl,
   (location_registry_dedup 1 [c9_jobA, c9_jobB] c9_s' (Input.init 1)
      c9_jobA c9_t').2 rfl rfl rfl⟩

/-! ### C5: the extra-feasibility pass only narrows, pairs move together -/

theorem updRow_self (row : Nat → Bool) (k : Nat) (b : Bool) :
    updRow row k b k = b := by
  simp [updRow]

theorem updRow_ne (row : Nat → Bool) (k : Nat) (b : Bool) {k' : Nat}
    (h : k' ≠ k) : updRow row k b k' = row k' := by
  simp [updRow, h]

theorem extra_loop_stop {s : Input}
    {caps : Nat → List Nat → List Nat → Bool} {tw1 : Nat → Nat → Bool}
    {tw2 : Nat → Nat → Nat → Bool} {v j : Nat} {row : Nat → Bool}
    (hj : ¬ j < s.jobs.length) :
    extra_loop s caps tw1 tw2 v j row = row := by
  rw [extra_loop]
  exact dif_neg hj

theorem extra_loop_skip {s : Input}
    {caps : Nat → List Nat → List Nat → Bool} {tw1 : Nat → Nat → Bool}
    {tw2 : Nat → Nat → Nat → Bool} {v j : Nat} {row : Nat → Bool}
    (hj : j < s.jobs.length) (hrow : row j = false) :
    extra_loop s caps tw1 tw2 v j row =
      extra_loop s caps tw1 tw2 v (j + 1) row := by
  rw [extra_loop]
  simp [hj, hrow]

theorem extra_loop_single {s : Input}
    {caps : Nat → List Nat → List Nat → Bool} {tw1 : Nat → Nat → Bool}
    {tw2 : Nat → Nat → Nat → Bool} {v j : Nat} {row : Nat → Bool}
    (hj : j < s.jobs.length) (hrow : row j = true)
    (hpick : ¬ (s.jobs.getD j default).type = JOB_TYPE.PICKUP) :
    extra_loop s caps tw1 tw2 v j row =
      extra_loop s caps tw1 tw2 v (j + 1)
        (updRow row j (extra_is_compatible s caps tw1 tw2 v j)) := by
  have hg : s.jobs.getD j default = s.jobs[j] :=
    List.getD_eq_getElem s.jobs default hj
  rw [hg] at hpick
  rw [extra_loop]
  simp [hj, hrow, hpick]

theorem extra_loop_pickup {s : Input}
    {caps : Nat → List Nat → List Nat → Bool} {tw1 : Nat → Nat → Bool}
    {tw2 : Nat → Nat → Nat → Bool} {v j : Nat} {row : Nat → Bool}
    (hj : j < s.jobs.length) (hrow : row j = true)
    (hpick : (s.jobs.getD j default).type = JOB_TYPE.PICKUP) :
    extra_loop s caps tw1 tw2 v j row =
      extra_loop s caps tw1 tw2 v (j + 2)
        (updRow (updRow row j (extra_is_compatible s caps tw1 tw2 v j))
          (j + 1) (extra_is_compatible s caps tw1 tw2 v j)) := by
  have hg : s.jobs.getD j default = s.jobs[j] :=
    List.getD_eq_getElem s.jobs default hj
  rw [hg] at hpick
  rw [extra_loop]
  simp [hj, hrow, hpick]

theorem extra_loop_main (s : Input)
    (caps : Nat → List Nat → List Nat → Bool) (tw1 : Nat → Nat → Bool)
    (tw2 : Nat → Nat → Nat → Bool) (v : Nat)
    (hc : shipmentCoherent s.jobs) :
    ∀ (n j : Nat) (row : Nat → Bool), s.jobs.length - j ≤ n →
    (∀ p, j ≤ p → p < s.jobs.length →
      (s.jobs.getD p default).type = JOB_TYPE.PICKUP → row p = row (p + 1)) →
    (∀ p, p + 2 ≤ j → p < s.jobs.length →
      (s.jobs.getD p default).type = JOB_TYPE.PICKUP → row p = row (p + 1)) →
    (∀ p, p + 1 = j → p < s.jobs.length →
      (s.jobs.getD p default).type = JOB_TYPE.PICKUP →
      row p = false ∧ row (p + 1) = false) →
    (∀ k, extra_loop s caps tw1 tw2 v j row k = true → row k = true) ∧
    (∀ p, p < s.jobs.length →
      (s.jobs.getD p default).type = JOB_TYPE.PICKUP →
      extra_loop s caps tw1 tw2 v j row p =
        extra_loop s caps tw1 tw2 v j row (p + 1)) := by
  intro n
  induction n with
  | zero =>
      intro j row hfuel hA hB hC
      have hj : ¬ j < s.jobs.length := by omega
      rw [extra_loop_stop hj]
      refine ⟨fun k hk => hk, ?_⟩
      intro p hp hpick
      rcases Nat.lt_or_ge p j with hlt | hge
      · rcases Nat.eq_or_lt_of_le (Nat.succ_le_of_lt hlt) with heq | hlt2
        · obtain ⟨h1, h2⟩ := hC p heq hp hpick
          rw [h1, h2]
        · exact hB p (by omega) hp hpick
      · exact hA p hge hp hpick
  | succ n ih =>
      intro j row hfuel hA hB hC
      by_cases hj : j < s.jobs.length
      · cases hrow : row j with
        | false =>
            rw [extra_loop_skip hj hrow]
            refine ih (j + 1) row (by omega) ?_ ?_ ?_
            · intro p hp hplen hpick
              exact hA p (by omega) hplen hpick
            · intro p hp hplen hpick
              rcases Nat.eq_or_lt_of_le hp with heq | hlt
              · obtain ⟨h1, h2⟩ := hC p (by omega) hplen hpick
                rw [h1, h2]
              · exact hB p (by omega) hplen hpick
            · intro p hp hplen hpick
              have hpj : p = j := by omega
              subst hpj
              exact ⟨hrow, (hA p (le_refl p) hplen hpick).symm.trans hrow⟩
        | true =>
            by_cases hpick : (s.jobs.getD j default).type = JOB_TYPE.PICKUP
            · obtain ⟨hjlt, hdel, hskills⟩ := hc j hj hpick
              rw [extra_loop_pickup hj hrow hpick]
              have hne1 : j ≠ j + 1 := by omega
              obtain ⟨ihA, ihB⟩ := ih (j + 2)
                (updRow (updRow row j (extra_is_compatible s caps tw1 tw2 v j))
                  (j + 1) (extra_is_compatible s caps tw1 tw2 v j))
                (by omega)
                (by
                  intro p hp hplen hpick2
                  rw [updRow_ne _ _ _ (by omega : p ≠ j + 1),
                    updRow_ne _ _ _ (by omega : p ≠ j),
                    updRow_ne _ _ _ (by omega : p + 1 ≠ j + 1),
                    updRow_ne _ _ _ (by omega : p + 1 ≠ j)]
                  exact hA p (by omega) hplen hpick2)
                (by
                  intro p hp hplen hpick2
                  rcases Nat.eq_or_lt_of_le (by omega : p ≤ j) with heq | hlt
                  · subst heq
                    rw [updRow_ne _ _ _ hne1, updRow_self, updRow_self]
                  · rcases Nat.eq_or_lt_of_le (by omega : p + 1 ≤ j)
                        with heq2 | hlt2
                    · exfalso
                      obtain ⟨_, hd2, _⟩ := hc p hplen hpick2
                      rw [heq2, hpick] at hd2
                      exact JOB_TYPE.noConfusion hd2
                    · rw [updRow_ne _ _ _ (by omega : p ≠ j + 1),
                        updRow_ne _ _ _ (by omega : p ≠ j),
                        updRow_ne _ _ _ (by omega : p + 1 ≠ j + 1),
                        updRow_ne _ _ _ (by omega : p + 1 ≠ j)]
                      exact hB p (by omega) hplen hpick2)
                (by
                  intro p hp hplen hpick2
                  exfalso
                  have hpj : p = j + 1 := by omega
                  rw [hpj, hdel] at hpick2
                  exact JOB_TYPE.noConfusion hpick2)
              refine ⟨?_, ihB⟩
              intro k hk
              have hk2 := ihA k hk
              by_cases hkj : k = j
              · rw [hkj]
                exact hrow
              · by_cases hkj1 : k = j + 1
                · rw [hkj1]
                  exact (hA j (le_refl j) hj hpick).symm.trans hrow
                · rw [updRow_ne _ _ _ hkj1, updRow_ne _ _ _ hkj] at hk2
                  exact hk2
            · rw [extra_loop_single hj hrow hpick]
              obtain ⟨ihA, ihB⟩ := ih (j + 1)
                (updRow row j (extra_is_compatible s caps tw1 tw2 v j))
                (by omega)
                (by
                  intro p hp hplen hpick2
                  rw [updRow_ne _ _ _ (by omega : p ≠ j),
                    updRow_ne _ _ _ (by omega : p + 1 ≠ j)]
                  exact hA p (by omega) hplen hpick2)
                (by
                  intro p hp hplen hpick2
                  rcases Nat.eq_or_lt_of_le (by omega : p + 1 ≤ j)
                      with heq | hlt
                  · exfalso
                    obtain ⟨h1, h2⟩ := hC p heq hplen hpick2
                    rw [← heq] at hrow
                    rw [h2] at hrow
                    exact Bool.noConfusion hrow
                  · rw [updRow_ne _ _ _ (by omega : p ≠ j),
                      updRow_ne _ _ _ (by omega : p + 1 ≠ j)]
                    exact hB p (by omega) hplen hpick2)
                (by
                  intro p hp hplen hpick2
                  exfalso
                  have hpj : p = j := by omega
                  rw [hpj] at hpick2
                  exact hpick hpick2)
              refine ⟨?_, ihB⟩
              intro k hk
              have hk2 := ihA k hk
              by_cases hkj : k = j
              · rw [hkj]
                exact hrow
              · rw [updRow_ne _ _ _ hkj] at hk2
                exact hk2
      · rw [extra_loop_stop hj]
        refine ⟨fun k hk => hk, ?_⟩
        intro p hp hpick
        rcases Nat.lt_or_ge p j with hlt | hge
        · rcases Nat.eq_or_lt_of_le (Nat.succ_le_of_lt hlt) with heq | hlt2
          · obtain ⟨h1, h2⟩ := hC p heq hp hpick
            rw [h1, h2]
          · exact hB p (by omega) hp hpick
        · exact hA p hge hp hpick

instance shipmentCoherent_decidable (jobs : List Job) :
    Decidable (shipmentCoherent jobs) :=
  show Decidable (∀ i, i < jobs.length →
    (jobs.getD i default).type = JOB_TYPE.PICKUP →
    i + 1 < jobs.length ∧
      (jobs.getD (i + 1) default).type = JOB_TYPE.DELIVERY ∧
      (jobs.getD i default).skills = (jobs.getD (i + 1) default).skills) from
  inferInstance

theorem skills_pair (s : Input) (v : Nat) (hc : shipmentCoherent s.jobs) :
    ∀ p, p < s.jobs.length →
      (s.jobs.getD p default).type = JOB_TYPE.PICKUP →
      set_skills_compatibility s v p = set_skills_compatibility s v (p + 1) := by
  intro p hp hpick
  obtain ⟨_, _, hsk⟩ := hc p hp hpick
  unfold set_skills_compatibility
  rw [hsk]

/-- C5: the extra-feasibility pass only narrows the vehicle-to-job
compatibility matrix: an entry marked incompatible by the skills pass is
never flipped to compatible; and a shipment pickup and its adjacent
delivery end the pass with the same feasibility value. -/
theorem extra_compatibility_narrowing (s : Input)
    (caps : Nat → List Nat → List Nat → Bool) (tw1 : Nat → Nat → Bool)
    (tw2 : Nat → Nat → Nat → Bool) (v : Nat)
    (hc : shipmentCoherent s.jobs) :
    (∀ j, set_extra_compatibility s caps tw1 tw2 v j = true →
       set_skills_compatibility s v j = true) ∧
    (∀ p, p < s.jobs.length →
       (s.jobs.getD p default).type = JOB_TYPE.PICKUP →
       set_extra_compatibility s caps tw1 tw2 v p =
         set_extra_compatibility s caps tw1 tw2 v (p + 1)) := by
  have hmain := extra_loop_main s caps tw1 tw2 v hc s.jobs.length 0
    (set_skills_compatibility s v) (by omega)
    (fun p _ hplen hpick => skills_pair s v hc p hplen hpick)
    (fun p hp _ _ => absurd hp (by omega))
    (fun p hp _ _ => absurd hp (by omega))
  exact ⟨hmain.1, hmain.2⟩

def c5_p : Job :=
  { id := 1, type := JOB_TYPE.PICKUP,
    location := { user_index := false, index := 0, coords := some ⟨0, 0⟩ },
    delivery := [0], pickup := [1], skills := ∅, tws := [DEFAULT_TW],
    priority := 0 }

def c5_d : Job :=
  { id := 1, type := JOB_TYPE.DELIVERY,
    location := { user_index := false, index := 1, coords := some ⟨1, 0⟩ },
    delivery := [1], pickup := [0], skills := ∅, tws := [DEFAULT_TW],
    priority := 0 }

def c5_input : Input := { Input.init 1 with jobs := [c5_p, c5_d] }

def c5_caps : Nat → List Nat → List Nat → Bool := fun _ _ _ => false

/-- C5 witness: the theorem applied to a concrete coherent two-job
shipment instance. -/
theorem extra_compatibility_narrowing_witness :
    (∀ j, set_extra_compatibility c5_input c5_caps (fun _ _ => true)
        (fun _ _ _ => true) 0 j = true →
       set_skills_compatibility c5_input 0 j = true) ∧
    (∀ p, p < c5_input.jobs.length →
       (c5_input.jobs.getD p default).type = JOB_TYPE.PICKUP →
       set_extra_compatibility c5_input c5_caps (fun _ _ => true)
           (fun _ _ _ => true) 0 p =
         set_extra_compatibility c5_input c5_caps (fun _ _ => true)
           (fun _ _ _ => true) 0 (p + 1)) :=
  extra_compatibility_narrowing c5_input c5_caps (fun _ _ => true)
    (fun _ _ _ => true) 0 (by decide)

/-! ### C2: soundness of the overflow-checked cost bound -/

def overflowExc : Exc :=
  ⟨ERROR.OVERFLOW_, "Too high cost values in provided matrices."⟩

theorem add_wo_ok {a b c : Nat} :
    add_without_overflow a b = .ok c ↔ a + b ≤ COST_MAX ∧ c = a + b := by
  unfold add_without_overflow
  split
  · constructor
    · intro h; exact Except.noConfusion h
    · intro ⟨h1, _⟩; omega
  · constructor
    · intro h; injection h with h; exact ⟨by omega, h.symm⟩
    · intro ⟨_, h⟩; rw [h]

theorem add_wo_err {a b : Nat} {e : Exc}
    (h : add_without_overflow a b = .error e) : e = overflowExc := by
  unfold add_without_overflow at h
  split at h
  · injection h with h; exact h.symm
  · exact Except.noConfusion h

theorem foldl_max_init_le (f : Nat → Nat) :
    ∀ (l : List Nat) (init : Nat),
      init ≤ l.foldl (fun acc x => max acc (f x)) init := by
  intro l
  induction l with
  | nil => intro init; exact le_refl init
  | cons x rest ih =>
      intro init
      exact le_trans (Nat.le_max_left init (f x)) (ih (max init (f x)))

theorem foldl_max_mem_le (f : Nat → Nat) :
    ∀ (l : List Nat) (init : Nat) (a : Nat), a ∈ l →
      f a ≤ l.foldl (fun acc x => max acc (f x)) init := by
  intro l
  induction l with
  | nil => intro init a ha; simp at ha
  | cons x rest ih =>
      intro init a ha
      rcases List.mem_cons.mp ha with heq | hmem
      · subst heq
        exact le_trans (Nat.le_max_right init (f a))
          (foldl_max_init_le f rest (max init (f a)))
      · exact ih (max init (f x)) a hmem

theorem entry_le_max_line {s : Input} {m : CostMatrix} {i j : Nat}
    (hi : i ∈ s.matrices_used_index) (hj : j ∈ s.matrices_used_index) :
    m.entry i j ≤ max_cost_per_line s m i := by
  unfold max_cost_per_line
  rw [if_pos hi]
  exact foldl_max_mem_le (fun x => m.entry i x) s.matrices_used_index 0 j hj

theorem jobs_fold_ok (s : Input) (m : CostMatrix) :
    ∀ (js : List Job) (d0 a0 d a : Nat),
      js.foldlM (fun acc j => do
        let d ← add_without_overflow acc.1 (max_cost_per_line s m j.index)
        let a ← add_without_overflow acc.2 (max_cost_per_column s m j.index)
        pure (d, a)) ((d0, a0) : Nat × Nat) = .ok (d, a) →
      d = d0 + (js.map (fun j => max_cost_per_line s m j.index)).sum ∧
      a = a0 + (js.map (fun j => max_cost_per_column s m j.index)).sum := by
  intro js
  induction js with
  | nil =>
      intro d0 a0 d a h
      simp only [List.foldlM_nil] at h
      injection h with h
      injection h with h1 h2
      simp [← h1, ← h2]
  | cons j rest ih =>
      intro d0 a0 d a h
      simp only [List.foldlM_cons, bind, Except.bind] at h
      cases h1 : add_without_overflow d0 (max_cost_per_line s m j.index) with
      | error e => simp only [h1] at h; exact Except.noConfusion h
      | ok d1 =>
          simp only [h1] at h
          cases h2 : add_without_overflow a0 (max_cost_per_column s m j.index) with
          | error e => simp only [h2] at h; exact Except.noConfusion h
          | ok a1 =>
              simp only [h2, pure, Except.pure] at h
              obtain ⟨hd1, ha1⟩ := ih d1 a1 d a h
              obtain ⟨_, hd1e⟩ := add_wo_ok.mp h1
              obtain ⟨_, ha1e⟩ := add_wo_ok.mp h2
              subst hd1e ha1e
              constructor
              · rw [hd1]
                simp [Nat.add_assoc]
              · rw [ha1]
                simp [Nat.add_assoc]

theorem jobs_fold_err (s : Input) (m : CostMatrix) :
    ∀ (js : List Job) (d0 a0 : Nat) (e : Exc),
      js.foldlM (fun acc j => do
        let d ← add_without_overflow acc.1 (max_cost_per_line s m j.index)
        let a ← add_without_overflow acc.2 (max_cost_per_column s m j.index)
        pure (d, a)) ((d0, a0) : Nat × Nat) = .error e →
      e = overflowExc := by
  intro js
  induction js with
  | nil =>
      intro d0 a0 e h
      simp only [List.foldlM_nil] at h
      exact Except.noConfusion h
  | cons j rest ih =>
      intro d0 a0 e h
      simp only [List.foldlM_cons, bind, Except.bind] at h
      cases h1 : add_without_overflow d0 (max_cost_per_line s m j.index) with
      | error e1 =>
          simp only [h1] at h
          injection h with h
          exact h ▸ add_wo_err h1
      | ok d1 =>
          simp only [h1] at h
          cases h2 : add_without_overflow a0 (max_cost_per_column s m j.index) with
          | error e2 =>
              simp only [h2] at h
              injection h with h
              exact h ▸ add_wo_err h2
          | ok a1 =>
              simp only [h2, pure, Except.pure] at h
              exact ih d1 a1 e h

/-- The start-bound or end-bound contribution of one vehicle. -/
def start_term (s : Input) (m : CostMatrix) (v : Vehicle) : Nat :=
  match v.start with
  | some l => max_cost_per_line s m l.index
  | none => 0

def end_term (s : Input) (m : CostMatrix) (v : Vehicle) : Nat :=
  match v.end_ with
  | some l => max_cost_per_column s m l.index
  | none => 0

theorem vehicles_fold_ok (s : Input) (m : CostMatrix) :
    ∀ (vs : List Vehicle) (sb0 eb0 sb eb : Nat),
      vs.foldlM (fun acc v => do
        let sb ← match v.start with
          | some l => add_without_overflow acc.1 (max_cost_per_line s m l.index)
          | none => pure acc.1
        let eb ← match v.end_ with
          | some l => add_without_overflow acc.2 (max_cost_per_column s m l.index)
          | none => pure acc.2
        pure (sb, eb)) ((sb0, eb0) : Nat × Nat) = .ok (sb, eb) →
      sb = sb0 + (vs.map (start_term s m)).sum ∧
      eb = eb0 + (vs.map (end_term s m)).sum := by
  intro vs
  induction vs with
  | nil =>
      intro sb0 eb0 sb eb h
      simp only [List.foldlM_nil] at h
      injection h with h
      injection h with h1 h2
      simp [← h1, ← h2]
  | cons v rest ih =>
      intro sb0 eb0 sb eb h
      simp only [List.foldlM_cons, bind, Except.bind] at h
      have finish : ∀ (sb1 eb1 : Nat), sb1 = sb0 + start_term s m v →
          eb1 = eb0 + end_term s m v →
          List.foldlM (fun acc v => do
            let sb ← match v.start with
              | some l => add_without_overflow acc.1 (max_cost_per_line s m l.index)
              | none => pure acc.1
            let eb ← match v.end_ with
              | some l => add_without_overflow acc.2 (max_cost_per_column s m l.index)
              | none => pure acc.2
            pure (sb, eb)) ((sb1, eb1) : Nat × Nat) rest = .ok (sb, eb) →
          sb = sb0 + ((v :: rest).map (start_term s m)).sum ∧
          eb = eb0 + ((v :: rest).map (end_term s m)).sum := by
        intro sb1 eb1 hsb1 heb1 hrest
        obtain ⟨ihs, ihe⟩ := ih sb1 eb1 sb eb hrest
        rw [ihs, ihe, hsb1, heb1]
        constructor <;> simp [Nat.add_assoc]
      cases hst : v.start with
      | none =>
          simp only [hst, pure, Except.pure] at h
          cases hend : v.end_ with
          | none =>
              simp only [hend] at h
              exact finish sb0 eb0 (by simp [start_term, hst]) (by simp [end_term, hend]) h
          | some l =>
              simp only [hend] at h
              cases h2 : add_without_overflow eb0 (max_cost_per_column s m l.index) with
              | error e => simp only [h2] at h; exact Except.noConfusion h
              | ok eb1 =>
                  simp only [h2] at h
                  obtain ⟨_, he⟩ := add_wo_ok.mp h2
                  exact finish sb0 eb1 (by simp [start_term, hst])
                    (by simp [end_term, hend, he]) h
      | some l0 =>
          simp only [hst] at h
          cases h1 : add_without_overflow sb0 (max_cost_per_line s m l0.index) with
          | error e => simp only [h1] at h; exact Except.noConfusion h
          | ok sb1 =>
              simp only [h1, pure, Except.pure] at h
              obtain ⟨_, hs⟩ := add_wo_ok.mp h1
              cases hend : v.end_ with
              | none =>
                  simp only [hend] at h
                  exact finish sb1 eb0 (by simp [start_term, hst, hs])
                    (by simp [end_term, hend]) h
              | some l =>
                  simp only [hend] at h
                  cases h2 : add_without_overflow eb0 (max_cost_per_column s m l.index) with
                  | error e => simp only [h2] at h; exact Except.noConfusion h
                  | ok eb1 =>
                      simp only [h2] at h
                      obtain ⟨_, he⟩ := add_wo_ok.mp h2
                      exact finish sb1 eb1 (by simp [start_term, hst, hs])
                        (by simp [end_term, hend, he]) h

theorem vehicles_fold_err (s : Input) (m : CostMatrix) :
    ∀ (vs : List Vehicle) (sb0 eb0 : Nat) (e : Exc),
      vs.foldlM (fun acc v => do
        let sb ← match v.start with
          | some l => add_without_overflow acc.1 (max_cost_per_line s m l.index)
          | none => pure acc.1
        let eb ← match v.end_ with
          | some l => add_without_overflow acc.2 (max_cost_per_column s m l.index)
          | none => pure acc.2
        pure (sb, eb)) ((sb0, eb0) : Nat × Nat) = .error e →
      e = overflowExc := by
  intro vs
  induction vs with
  | nil =>
      intro sb0 eb0 e h
      simp only [List.foldlM_nil] at h
      exact Except.noConfusion h
  | cons v rest ih =>
      intro sb0 eb0 e h
      simp only [List.foldlM_cons, bind, Except.bind] at h
      cases hst : v.start with
      | none =>
          simp only [hst, pure, Except.pure] at h
          cases hend : v.end_ with
          | none =>
              simp only [hend] at h
              exact ih sb0 eb0 e h
          | some l =>
              simp only [hend] at h
              cases h2 : add_without_overflow eb0 (max_cost_per_column s m l.index) with
              | error e2 =>
                  simp only [h2] at h
                  injection h with h
                  exact h ▸ add_wo_err h2
              | ok eb1 =>
                  simp only [h2] at h
                  exact ih sb0 eb1 e h
      | some l0 =>
          simp only [hst] at h
          cases h1 : add_without_overflow sb0 (max_cost_per_line s m l0.index) with
          | error e1 =>
              simp only [h1] at h
              injection h with h
              exact h ▸ add_wo_err h1
          | ok sb1 =>
              simp only [h1, pure, Except.pure] at h
              cases hend : v.end_ with
              | none =>
                  simp only [hend] at h
                  exact ih sb1 eb0 e h
              | some l =>
                  simp only [hend] at h
                  cases h2 : add_without_overflow eb0 (max_cost_per_column s m l.index) with
                  | error e2 =>
                      simp only [h2] at h
                      injection h with h
                      exact h ▸ add_wo_err h2
                  | ok eb1 =>
                      simp only [h2] at h
                      exact ih sb1 eb1 e h

theorem path_cost_le (s : Input) (m : CostMatrix) :
    ∀ (l : List Nat), (∀ x ∈ l, x ∈ s.matrices_used_index) →
      path_cost m l ≤ (l.dropLast.map (max_cost_per_line s m)).sum := by
  intro l
  induction l with
  | nil => intro _; simp [path_cost]
  | cons i tail ih =>
      intro hmem
      cases tail with
      | nil => simp [path_cost]
      | cons j rest =>
          have hi : i ∈ s.matrices_used_index := hmem i (by simp)
          have hj : j ∈ s.matrices_used_index := hmem j (by simp)
          have htail : ∀ x ∈ j :: rest, x ∈ s.matrices_used_index :=
            fun x hx => hmem x (List.mem_cons_of_mem i hx)
          have hstep : path_cost m (i :: j :: rest) =
              m.entry i j + path_cost m (j :: rest) := rfl
          have hdl : (i :: j :: rest).dropLast = i :: (j :: rest).dropLast := rfl
          rw [hstep, hdl, List.map_cons, List.sum_cons]
          exact Nat.add_le_add (entry_le_max_line hi hj) (ih htail)

theorem sum_line_dropLast_le (s : Input) (m : CostMatrix) (l : List Nat) :
    (l.dropLast.map (max_cost_per_line s m)).sum ≤
      (l.map (max_cost_per_line s m)).sum := by
  apply List.Sublist.sum_le_sum
  · exact (List.dropLast_sublist l).map (max_cost_per_line s m)
  · intro a _; exact Nat.zero_le a

theorem subperm_sum_le (f : Job → Nat) {l₁ l₂ : List Job}
    (h : l₁.Subperm l₂) : (l₁.map f).sum ≤ (l₂.map f).sum := by
  obtain ⟨l, hperm, hsub⟩ := h
  calc (l₁.map f).sum = (l.map f).sum := ((hperm.map f).sum_eq).symm
    _ ≤ (l₂.map f).sum := by
        apply List.Sublist.sum_le_sum (hsub.map f)
        intro a _; exact Nat.zero_le a

/-- C2.  `Input::check_cost_bound` (input.cpp:385-429) is a sound route-cost
bound: when it succeeds, the returned bound fits the cost type's range and
dominates the actual cost of every route a vehicle of the instance could run
over any sub-collection of the instance's jobs built from referenced matrix
indices; and when it fails it signals the dedicated overflow condition
(never wrapping). -/
theorem check_cost_bound_sound (s : Input) (m : CostMatrix)
    (hjobs : ∀ j ∈ s.jobs, j.index ∈ s.matrices_used_index)
    (hveh : ∀ v ∈ s.vehicles,
      (∀ l ∈ v.start, l.index ∈ s.matrices_used_index) ∧
      (∀ l ∈ v.end_, l.index ∈ s.matrices_used_index)) :
    (∀ b, check_cost_bound s m = .ok b →
      b ≤ COST_MAX ∧
      ∀ v ∈ s.vehicles, ∀ visited : List Job, visited.Subperm s.jobs →
        route_cost m v visited ≤ b) ∧
    (∀ e, check_cost_bound s m = .error e → e.error = ERROR.OVERFLOW_) := by
  constructor
  · intro b hb
    unfold check_cost_bound at hb
    simp only [bind, Except.bind] at hb
    cases hjb : jobs_bounds s m with
    | error e => simp only [hjb] at hb; exact Except.noConfusion hb
    | ok ja =>
        obtain ⟨jd, jar⟩ := ja
        simp only [hjb] at hb
        cases hvb : vehicles_bounds s m with
        | error e => simp only [hvb] at hb; exact Except.noConfusion hb
        | ok vb =>
            obtain ⟨sb, eb⟩ := vb
            simp only [hvb] at hb
            cases h1 : add_without_overflow sb (max jd jar) with
            | error e => simp only [h1] at hb; exact Except.noConfusion hb
            | ok bound =>
                simp only [h1] at hb
                obtain ⟨_, hbound⟩ := add_wo_ok.mp h1
                obtain ⟨hle, hbeq⟩ := add_wo_ok.mp hb
                obtain ⟨hjd, hja⟩ := jobs_fold_ok s m s.jobs 0 0 jd jar hjb
                obtain ⟨hsb, heb⟩ := vehicles_fold_ok s m s.vehicles 0 0 sb eb hvb
                refine ⟨by omega, ?_⟩
                intro v hv visited hsub
                have hnodes : ∀ x ∈ route_nodes v visited,
                    x ∈ s.matrices_used_index := by
                  intro x hx
                  unfold route_nodes at hx
                  rcases List.mem_append.mp hx with hx | hx
                  · rcases List.mem_append.mp hx with hx | hx
                    · cases hst : v.start with
                      | none => rw [hst] at hx; simp at hx
                      | some l0 =>
                          rw [hst] at hx
                          simp only [Option.map_some', Option.toList_some,
                            List.mem_singleton] at hx
                          exact hx ▸ (hveh v hv).1 l0 (by rw [hst]; rfl)
                    · obtain ⟨j, hj, hjx⟩ := List.mem_map.mp hx
                      exact hjx ▸ hjobs j (hsub.subset hj)
                  · cases hen : v.end_ with
                    | none => rw [hen] at hx; simp at hx
                    | some l0 =>
                        rw [hen] at hx
                        simp only [Option.map_some', Option.toList_some,
                          List.mem_singleton] at hx
                        exact hx ▸ (hveh v hv).2 l0 (by rw [hen]; rfl)
                have hpath := path_cost_le s m (route_nodes v visited) hnodes
                have hjsum : (visited.map
                      (fun j => max_cost_per_line s m j.index)).sum ≤ jd := by
                  rw [hjd]
                  have := subperm_sum_le
                    (fun j => max_cost_per_line s m j.index) hsub
                  omega
                have hstart : start_term s m v ≤ sb := by
                  rw [hsb]
                  have hm : start_term s m v ∈ s.vehicles.map (start_term s m) :=
                    List.mem_map_of_mem (start_term s m) hv
                  have := List.single_le_sum
                    (l := s.vehicles.map (start_term s m))
                    (fun x _ => Nat.zero_le x) _ hm
                  omega
                have hdrop : ((route_nodes v visited).dropLast.map
                      (max_cost_per_line s m)).sum ≤
                    start_term s m v + (visited.map
                      (fun j => max_cost_per_line s m j.index)).sum := by
                  have hfull : ((((v.start.map Location.index).toList ++
                        visited.map Job.index)).map
                        (max_cost_per_line s m)).sum =
                      start_term s m v + (visited.map
                        (fun j => max_cost_per_line s m j.index)).sum := by
                    rw [List.map_append, List.sum_append, List.map_map]
                    congr 1
                    cases hst : v.start with
                    | none => simp [start_term, hst]
                    | some l0 => simp [start_term, hst]
                  cases hen : v.end_ with
                  | some l0 =>
                      have : route_nodes v visited =
                          ((v.start.map Location.index).toList ++
                            visited.map Job.index) ++ [l0.index] := by
                        unfold route_nodes
                        rw [hen]
                        simp
                      rw [this, List.dropLast_concat, hfull]
                  | none =>
                      have hre : route_nodes v visited =
                          (v.start.map Location.index).toList ++
                            visited.map Job.index := by
                        unfold route_nodes
                        rw [hen]
                        simp
                      calc ((route_nodes v visited).dropLast.map
                            (max_cost_per_line s m)).sum
                          ≤ ((route_nodes v visited).map
                            (max_cost_per_line s m)).sum :=
                            sum_line_dropLast_le s m _
                        _ = _ := by rw [hre, hfull]
                have : route_cost m v visited ≤
                    start_term s m v + (visited.map
                      (fun j => max_cost_per_line s m j.index)).sum :=
                  le_trans hpath hdrop
                have hmaxle : jd ≤ max jd jar := Nat.le_max_left jd jar
                omega
  · intro e he
    unfold check_cost_bound at he
    simp only [bind, Except.bind] at he
    cases hjb : jobs_bounds s m with
    | error e1 =>
        simp only [hjb] at he
        injection he with he
        have := jobs_fold_err s m s.jobs 0 0 e1 hjb
        rw [← he, this]
        rfl
    | ok ja =>
        obtain ⟨jd, jar⟩ := ja
        simp only [hjb] at he
        cases hvb : vehicles_bounds s m with
        | error e1 =>
            simp only [hvb] at he
            injection he with he
            have := vehicles_fold_err s m s.vehicles 0 0 e1 hvb
            rw [← he, this]
            rfl
        | ok vb =>
            obtain ⟨sb, eb⟩ := vb
            simp only [hvb] at he
            cases h1 : add_without_overflow sb (max jd jar) with
            | error e1 =>
                simp only [h1] at he
                injection he with he
                rw [← he, add_wo_err h1]
                rfl
            | ok bound =>
                simp only [h1] at he
                rw [add_wo_err he]
                rfl

def c2_loc : Location := { user_index := true, index := 0, coords := none }

def c2_job : Job :=
  { id := 1, type := .SINGLE, location := c2_loc, delivery := [], pickup := [],
    skills := ∅, tws := [DEFAULT_TW], priority := 0 }

def c2_vehicle : Vehicle :=
  { id := 1, start := some c2_loc, end_ := some c2_loc, capacity := [],
    skills := ∅, tw := DEFAULT_TW, profile := "car", steps := [],
    break_id_to_rank := [] }

def c2_input : Input :=
  { Input.init 0 with jobs := [c2_job], vehicles := [c2_vehicle],
                      matrices_used_index := [0] }

def c2_m : CostMatrix := { size := 1, entry := fun _ _ => 7 }

theorem check_cost_bound_sound_witness :
    ((∀ j ∈ c2_input.jobs, j.index ∈ c2_input.matrices_used_index) ∧
     (∀ v ∈ c2_input.vehicles,
       (∀ l ∈ v.start, l.index ∈ c2_input.matrices_used_index) ∧
       (∀ l ∈ v.end_, l.index ∈ c2_input.matrices_used_index))) ∧
    ((∀ b, check_cost_bound c2_input c2_m = .ok b →
        b ≤ COST_MAX ∧
        ∀ v ∈ c2_input.vehicles, ∀ visited : List Job,
          visited.Subperm c2_input.jobs →
            route_cost c2_m v visited ≤ b) ∧
     (∀ e, check_cost_bound c2_input c2_m = .error e →
        e.error = ERROR.OVERFLOW_)) :=
  ⟨⟨by decide, by decide⟩,
    check_cost_bound_sound c2_input c2_m (by decide) (by decide)⟩

/-! ### C4: characterization of step-rank resolution in `Input::check` -/

/-- Whether a step's id lookup succeeds: break steps against the vehicle's
own break table, job steps against the id→rank table matching the step's
job type (input.cpp:717-737, 750-757, 770-777). -/
def step_lookup_ok (s : Input) (v : Vehicle) (step : VStep) : Bool :=
  (if step.typ = STEP_TYPE.BREAK
   then (alookup v.break_id_to_rank step.id).isSome else true) &&
  (if step.typ = STEP_TYPE.JOB
   then (alookup (rank_table s step.job_type) step.id).isSome else true)

/-- The step with its rank set to the stored rank for its id (the identity
on steps whose type carries no rank resolution). -/
def resolved_step (s : Input) (v : Vehicle) (step : VStep) : VStep :=
  if step.typ = STEP_TYPE.BREAK then
    match alookup v.break_id_to_rank step.id with
    | some r => { step with rank := r }
    | none => step
  else if step.typ = STEP_TYPE.JOB then
    match alookup (rank_table s step.job_type) step.id with
    | some r => { step with rank := r }
    | none => step
  else step

/-- The planned-id bookkeeping of one step: job steps record their id in
the set matching their job type. -/
def step_planned_insert (pl : Planned) (step : VStep) : Planned :=
  if step.typ = STEP_TYPE.JOB then
    match step.job_type with
    | JOB_TYPE.SINGLE => { pl with jobs := pl.jobs ++ [step.id] }
    | JOB_TYPE.PICKUP => { pl with pickups := pl.pickups ++ [step.id] }
    | JOB_TYPE.DELIVERY => { pl with deliveries := pl.deliveries ++ [step.id] }
  else pl

/-- Whether a job step's id is not yet planned in its category. -/
def step_fresh (pl : Planned) (step : VStep) : Bool :=
  if step.typ = STEP_TYPE.JOB then
    match step.job_type with
    | JOB_TYPE.SINGLE => decide (step.id ∉ pl.jobs)
    | JOB_TYPE.PICKUP => decide (step.id ∉ pl.pickups)
    | JOB_TYPE.DELIVERY => decide (step.id ∉ pl.deliveries)
  else true

theorem resolve_step_ok_iff {s : Input} {v : Vehicle} {pl : Planned}
    {step : VStep} {q : VStep × Planned} :
    resolve_step s v pl step = .ok q ↔
      step_lookup_ok s v step = true ∧ step_fresh pl step = true ∧
      q = (resolved_step s v step, step_planned_insert pl step) := by
  obtain ⟨typ, jt, id, rank⟩ := step
  cases typ with
  | START =>
      simp [resolve_step, step_lookup_ok, step_fresh, resolved_step,
        step_planned_insert, bind, Except.bind, pure, Except.pure, eq_comm]
  | END =>
      simp [resolve_step, step_lookup_ok, step_fresh, resolved_step,
        step_planned_insert, bind, Except.bind, pure, Except.pure, eq_comm]
  | BREAK =>
      cases hl : alookup v.break_id_to_rank id with
      | none =>
          simp [resolve_step, step_lookup_ok, bind, Except.bind, pure,
            Except.pure, throw, throwThe, MonadExceptOf.throw, hl]
      | some r =>
          simp [resolve_step, step_lookup_ok, step_fresh, resolved_step,
            step_planned_insert, bind, Except.bind, pure, Except.pure, hl,
            eq_comm]
  | JOB =>
      cases jt with
      | SINGLE =>
          cases hl : alookup s.job_id_to_rank id with
          | none =>
              simp [resolve_step, step_lookup_ok, rank_table, bind,
                Except.bind, pure, Except.pure, throw, throwThe,
                MonadExceptOf.throw, hl]
          | some r =>
              by_cases hm : id ∈ pl.jobs
              · simp [resolve_step, step_lookup_ok, step_fresh, rank_table,
                  bind, Except.bind, pure, Except.pure, throw, throwThe,
                  MonadExceptOf.throw, hl, hm]
              · simp [resolve_step, step_lookup_ok, step_fresh, resolved_step,
                  step_planned_insert, rank_table, bind, Except.bind, pure,
                  Except.pure, hl, hm, eq_comm]
      | PICKUP =>
          cases hl : alookup s.pickup_id_to_rank id with
          | none =>
              simp [resolve_step, step_lookup_ok, rank_table, bind,
                Except.bind, pure, Except.pure, throw, throwThe,
                MonadExceptOf.throw, hl]
          | some r =>
              by_cases hm : id ∈ pl.pickups
              · simp [resolve_step, step_lookup_ok, step_fresh, rank_table,
                  bind, Except.bind, pure, Except.pure, throw, throwThe,
                  MonadExceptOf.throw, hl, hm]
              · simp [resolve_step, step_lookup_ok, step_fresh, resolved_step,
                  step_planned_insert, rank_table, bind, Except.bind, pure,
                  Except.pure, hl, hm, eq_comm]
      | DELIVERY =>
          cases hl : alookup s.delivery_id_to_rank id with
          | none =>
              simp [resolve_step, step_lookup_ok, rank_table, bind,
                Except.bind, pure, Except.pure, throw, throwThe,
                MonadExceptOf.throw, hl]
          | some r =>
              by_cases hm : id ∈ pl.deliveries
              · simp [resolve_step, step_lookup_ok, step_fresh, rank_table,
                  bind, Except.bind, pure, Except.pure, throw, throwThe,
                  MonadExceptOf.throw, hl, hm]
              · simp [resolve_step, step_lookup_ok, step_fresh, resolved_step,
                  step_planned_insert, rank_table, bind, Except.bind, pure,
                  Except.pure, hl, hm, eq_comm]

/-- Sequential freshness of a step list against the running planned sets. -/
def fresh_seq (pl : Planned) : List VStep → Bool
  | [] => true
  | step :: rest => step_fresh pl step && fresh_seq (step_planned_insert pl step) rest

theorem resolve_steps_ok_iff {s : Input} {v : Vehicle} {steps : List VStep} :
    ∀ {pl : Planned} {q : List VStep × Planned},
      resolve_steps s v pl steps = .ok q ↔
        (∀ st ∈ steps, step_lookup_ok s v st = true) ∧
        fresh_seq pl steps = true ∧
        q = (steps.map (resolved_step s v), steps.foldl step_planned_insert pl) := by
  induction steps with
  | nil =>
      intro pl q
      constructor
      · intro h
        injection h with h
        exact ⟨by simp, rfl, h.symm⟩
      · intro ⟨h1, h2, hq⟩
        rw [hq]
        rfl
  | cons st rest ih =>
      intro pl q
      constructor
      · intro h
        rw [resolve_steps] at h
        simp only [bind, Except.bind] at h
        cases h1 : resolve_step s v pl st with
        | error e => simp only [h1] at h; exact Except.noConfusion h
        | ok p =>
            obtain ⟨st', pl'⟩ := p
            simp only [h1] at h
            cases h2 : resolve_steps s v pl' rest with
            | error e => simp only [h2] at h; exact Except.noConfusion h
            | ok q2 =>
                obtain ⟨rest', pl''⟩ := q2
                simp only [h2, pure, Except.pure] at h
                injection h with h
                obtain ⟨hlk, hfr, hq⟩ := resolve_step_ok_iff.mp h1
                simp only [Prod.mk.injEq] at hq
                obtain ⟨hst, hpl⟩ := hq
                subst hst hpl
                obtain ⟨hlk2, hfr2, hq2⟩ := ih.mp h2
                simp only [Prod.mk.injEq] at hq2
                obtain ⟨hrest, hpl2⟩ := hq2
                subst hrest hpl2
                refine ⟨?_, ?_, ?_⟩
                · intro x hx
                  rcases List.mem_cons.mp hx with hx | hx
                  · exact hx ▸ hlk
                  · exact hlk2 x hx
                · rw [fresh_seq, Bool.and_eq_true]
                  exact ⟨hfr, hfr2⟩
                · rw [← h]
                  simp [List.foldl_cons]
      · intro ⟨hlk, hfr, hq⟩
        rw [fresh_seq, Bool.and_eq_true] at hfr
        have h1 : resolve_step s v pl st =
            .ok (resolved_step s v st, step_planned_insert pl st) :=
          resolve_step_ok_iff.mpr ⟨hlk st (by simp), hfr.1, rfl⟩
        have h2 : resolve_steps s v (step_planned_insert pl st) rest =
            .ok (rest.map (resolved_step s v),
                 rest.foldl step_planned_insert (step_planned_insert pl st)) :=
          ih.mpr ⟨fun x hx => hlk x (List.mem_cons_of_mem st hx), hfr.2, rfl⟩
        rw [resolve_steps]
        simp only [bind, Except.bind, h1, h2, pure, Except.pure]
        rw [hq]
        simp [List.foldl_cons]

/-- The concatenation of all vehicles' step lists, in vehicle order. -/
def allSteps : List Vehicle → List VStep
  | [] => []
  | v :: rest => v.steps ++ allSteps rest

theorem fresh_seq_append :
    ∀ (a b : List VStep) (pl : Planned),
      fresh_seq pl (a ++ b) =
        (fresh_seq pl a && fresh_seq (a.foldl step_planned_insert pl) b) := by
  intro a
  induction a with
  | nil => intro b pl; simp [fresh_seq]
  | cons st rest ih =>
      intro b pl
      rw [List.cons_append, fresh_seq, fresh_seq, ih, List.foldl_cons,
        Bool.and_assoc]

theorem resolve_vehicles_ok_iff {s : Input} {vs : List Vehicle} :
    ∀ {pl : Planned} {q : List Vehicle × Planned},
      resolve_vehicles s pl vs = .ok q ↔
        (∀ v ∈ vs, ∀ st ∈ v.steps, step_lookup_ok s v st = true) ∧
        fresh_seq pl (allSteps vs) = true ∧
        q = (vs.map (fun v => { v with steps := v.steps.map (resolved_step s v) }),
             (allSteps vs).foldl step_planned_insert pl) := by
  induction vs with
  | nil =>
      intro pl q
      constructor
      · intro h
        injection h with h
        exact ⟨by simp, rfl, h.symm⟩
      · intro ⟨h1, h2, hq⟩
        rw [hq]
        rfl
  | cons v rest ih =>
      intro pl q
      constructor
      · intro h
        rw [resolve_vehicles] at h
        simp only [bind, Except.bind] at h
        cases h1 : resolve_steps s v pl v.steps with
        | error e => simp only [h1] at h; exact Except.noConfusion h
        | ok p =>
            obtain ⟨steps', pl'⟩ := p
            simp only [h1] at h
            cases h2 : resolve_vehicles s pl' rest with
            | error e => simp only [h2] at h; exact Except.noConfusion h
            | ok q2 =>
                obtain ⟨rest', pl''⟩ := q2
                simp only [h2, pure, Except.pure] at h
                injection h with h
                obtain ⟨hlk, hfr, hq⟩ := resolve_steps_ok_iff.mp h1
                simp only [Prod.mk.injEq] at hq
                obtain ⟨hsteps, hpl⟩ := hq
                subst hsteps hpl
                obtain ⟨hlk2, hfr2, hq2⟩ := ih.mp h2
                simp only [Prod.mk.injEq] at hq2
                obtain ⟨hrest, hpl2⟩ := hq2
                subst hrest hpl2
                refine ⟨?_, ?_, ?_⟩
                · intro x hx
                  rcases List.mem_cons.mp hx with hx | hx
                  · exact hx ▸ hlk
                  · exact hlk2 x hx
                · rw [allSteps, fresh_seq_append, Bool.and_eq_true]
                  exact ⟨hfr, hfr2⟩
                · rw [← h]
                  simp [allSteps, List.foldl_append]
      · intro ⟨hlk, hfr, hq⟩
        rw [allSteps, fresh_seq_append, Bool.and_eq_true] at hfr
        have h1 : resolve_steps s v pl v.steps =
            .ok (v.steps.map (resolved_step s v),
                 v.steps.foldl step_planned_insert pl) :=
          resolve_steps_ok_iff.mpr ⟨hlk v (by simp), hfr.1, rfl⟩
        have h2 : resolve_vehicles s (v.steps.foldl step_planned_insert pl) rest =
            .ok (rest.map (fun v => { v with steps := v.steps.map (resolved_step s v) }),
                 (allSteps rest).foldl step_planned_insert
                   (v.steps.foldl step_planned_insert pl)) :=
          ih.mpr ⟨fun x hx => hlk x (List.mem_cons_of_mem v hx), hfr.2, rfl⟩
        rw [resolve_vehicles]
        simp only [bind, Except.bind, h1, h2, pure, Except.pure]
        rw [hq]
        simp [allSteps, List.foldl_append]

/-- The ids of the job steps of one category, in order. -/
def cat_ids (t : JOB_TYPE) : List VStep → List Nat
  | [] => []
  | step :: rest =>
      if step.typ = STEP_TYPE.JOB then
        if step.job_type = t then step.id :: cat_ids t rest
        else cat_ids t rest
      else cat_ids t rest

theorem not_mem_of_forall_ne {l : List Nat} {a : Nat} :
    (∀ i ∈ l, ¬ i = a) ↔ a ∉ l := by
  constructor
  · intro h ha
    exact h a ha rfl
  · intro h i hi he
    exact h (he ▸ hi)

theorem fresh_seq_iff_nodup (steps : List VStep) : ∀ (pl : Planned),
    fresh_seq pl steps = true ↔
      ((cat_ids JOB_TYPE.SINGLE steps).Nodup ∧
         ∀ i ∈ cat_ids JOB_TYPE.SINGLE steps, i ∉ pl.jobs) ∧
      ((cat_ids JOB_TYPE.PICKUP steps).Nodup ∧
         ∀ i ∈ cat_ids JOB_TYPE.PICKUP steps, i ∉ pl.pickups) ∧
      ((cat_ids JOB_TYPE.DELIVERY steps).Nodup ∧
         ∀ i ∈ cat_ids JOB_TYPE.DELIVERY steps, i ∉ pl.deliveries) := by
  induction steps with
  | nil =>
      intro pl
      simp [fresh_seq, cat_ids]
  | cons st rest ih =>
      intro pl
      obtain ⟨typ, jt, id, rank⟩ := st
      rw [fresh_seq, Bool.and_eq_true, ih]
      cases typ with
      | START =>
          simp [step_fresh, step_planned_insert, cat_ids]
      | END =>
          simp [step_fresh, step_planned_insert, cat_ids]
      | BREAK =>
          simp [step_fresh, step_planned_insert, cat_ids]
      | JOB =>
          cases jt with
          | SINGLE =>
              simp only [step_fresh, step_planned_insert, cat_ids]
              simp [List.nodup_cons, List.mem_append, not_or, imp_and,
                forall_and, not_mem_of_forall_ne]
              tauto
          | PICKUP =>
              simp only [step_fresh, step_planned_insert, cat_ids]
              simp [List.nodup_cons, List.mem_append, not_or, imp_and,
                forall_and, not_mem_of_forall_ne]
              tauto
          | DELIVERY =>
              simp only [step_fresh, step_planned_insert, cat_ids]
              simp [List.nodup_cons, List.mem_append, not_or, imp_and,
                forall_and, not_mem_of_forall_ne]
              tauto

/-- The success condition of step-rank resolution: all id lookups succeed
and, per job category, no id occurs twice across the concatenation of all
vehicles' step lists. -/
def steps_resolvable (s : Input) : Prop :=
  (∀ v ∈ s.vehicles, ∀ st ∈ v.steps, step_lookup_ok s v st = true) ∧
  (cat_ids JOB_TYPE.SINGLE (allSteps s.vehicles)).Nodup ∧
  (cat_ids JOB_TYPE.PICKUP (allSteps s.vehicles)).Nodup ∧
  (cat_ids JOB_TYPE.DELIVERY (allSteps s.vehicles)).Nodup

/-- C4.  The step-rank resolution phase of `Input::check`
(input.cpp:708-793): every failure is of kind INPUT; resolution succeeds
exactly when every break step's id is known in its vehicle's break table,
every job step's id is known in the id→rank table matching its job type,
and no id appears twice in the same category across the WHOLE vehicle
collection's step lists — the planned-id sets are declared outside the
vehicle loop and shared by all vehicles, so duplicate detection is global
rather than per vehicle; on success every step's rank is rewritten to the
stored rank for its id. -/
theorem check_step_rank_resolution (s : Input) :
    (∀ e, resolve_step_ranks s = .error e → e.error = ERROR.INPUT) ∧
    ((∃ s', resolve_step_ranks s = .ok s') ↔ steps_resolvable s) ∧
    (∀ s', resolve_step_ranks s = .ok s' →
      s'.vehicles = s.vehicles.map
        (fun v => { v with steps := v.steps.map (resolved_step s v) })) := by
  refine ⟨fun e he => resolve_step_ranks_err he, ?_, ?_⟩
  · constructor
    · intro ⟨s', hs⟩
      unfold resolve_step_ranks at hs
      simp only [bind, Except.bind] at hs
      cases h1 : resolve_vehicles s ⟨[], [], []⟩ s.vehicles with
      | error e => simp only [h1] at hs; exact Except.noConfusion hs
      | ok q =>
          obtain ⟨hlk, hfr, _⟩ := resolve_vehicles_ok_iff.mp h1
          rw [fresh_seq_iff_nodup] at hfr
          exact ⟨hlk, hfr.1.1, hfr.2.1.1, hfr.2.2.1⟩
    · intro ⟨hlk, h1, h2, h3⟩
      have hfr : fresh_seq ⟨[], [], []⟩ (allSteps s.vehicles) = true := by
        rw [fresh_seq_iff_nodup]
        refine ⟨⟨h1, ?_⟩, ⟨h2, ?_⟩, ⟨h3, ?_⟩⟩ <;> intro i hi <;> simp
      have hok : resolve_vehicles s ⟨[], [], []⟩ s.vehicles =
          .ok (s.vehicles.map
                (fun v => { v with steps := v.steps.map (resolved_step s v) }),
               (allSteps s.vehicles).foldl step_planned_insert ⟨[], [], []⟩) :=
        resolve_vehicles_ok_iff.mpr ⟨hlk, hfr, rfl⟩
      refine ⟨{ s with vehicles := s.vehicles.map (fun v => { v with steps := v.steps.map (resolved_step s v) }) }, ?_⟩
      unfold resolve_step_ranks
      simp only [bind, Except.bind, hok, pure, Except.pure]
  · intro s' hs
    unfold resolve_step_ranks at hs
    simp only [bind, Except.bind] at hs
    cases h1 : resolve_vehicles s ⟨[], [], []⟩ s.vehicles with
    | error e => simp only [h1] at hs; exact Except.noConfusion hs
    | ok q =>
        obtain ⟨vs', pl'⟩ := q
        simp only [h1, pure, Except.pure] at hs
        injection hs with hs
        obtain ⟨_, _, hq⟩ := resolve_vehicles_ok_iff.mp h1
        simp only [Prod.mk.injEq] at hq
        rw [← hs]
        exact hq.1

def c4_step : VStep :=
  { typ := STEP_TYPE.JOB, job_type := JOB_TYPE.SINGLE, id := 1, rank := 0 }

def c4_v1 : Vehicle :=
  { id := 7, start := none, end_ := none, capacity := [], skills := ∅,
    tw := DEFAULT_TW, profile := "car", steps := [c4_step],
    break_id_to_rank := [] }

def c4_v2 : Vehicle := { c4_v1 with id := 8 }

def c4_input : Input :=
  { Input.init 0 with vehicles := [c4_v1, c4_v2],
                      job_id_to_rank := [(1, 5)] }

/-- Counterexample to C4 as stated: two vehicles each plan the single job
with id 1; each vehicle's own step list has no duplicate id and every id
is known in its table, yet step-rank resolution fails — duplicate
detection is across vehicles, not within one vehicle's step list. -/
theorem check_step_rank_cross_vehicle_cex :
    (∀ v ∈ c4_input.vehicles, (v.steps.map VStep.id).Nodup ∧
       ∀ st ∈ v.steps, step_lookup_ok c4_input v st = true) ∧
    resolve_step_ranks c4_input = .error
      ⟨ERROR.INPUT, "Duplicate job id 1 in input steps for vehicle 8."⟩ := by
  constructor
  · decide
  · rfl

def c4w_input : Input :=
  { Input.init 0 with vehicles := [c4_v1], job_id_to_rank := [(1, 5)] }

theorem check_step_rank_resolution_witness :
    steps_resolvable c4w_input ∧
      (∃ s', resolve_step_ranks c4w_input = .ok s') := by
  have hres : steps_resolvable c4w_input :=
    ⟨by decide, by decide, by decide, by decide⟩
  exact ⟨hres, (check_step_rank_resolution c4w_input).2.1.mpr hres⟩

end vroom
